import Mathlib

/-!
# Job broker: wire mapping, retry policy, delayed publish and serve loops

A shallow embedding of `broker/amqp/job.go`, `broker/amqp/queue.go` and
`broker/ephemeral/queue.go`.

Conventions.
* Go `int` is the 64-bit `int` of the targets the broker is built for, so `int64(x)` and
  `int(x)` are value preserving; both are the identity here. Arithmetic that can leave the
  range (`attempt+1`, `delayMs * 2`) wraps explicitly through `wrap64`.
* A Go `string` used as a name or id is a `String`; payload and body are byte lists, and the
  conversions `string(d.Body)` and `j.Body()` are byte preserving.
* Calls to the outside world (channel pool, AMQP channel, handler, acknowledgements) are
  recorded as a trace of `Op`s; their results come from an outcome record `Env`.
* `int64(delay.Seconds() * 1000)` is a `float64` computation. `delayMillis` embeds it with
  exact round-to-nearest-even arithmetic on ratios of integers. `publish` and the definitions
  built on it take the conversion as an argument `ms`; `delayMillis` is the conversion of the
  program.
* `do` binds four results at `id, attempt, j, err := unpack(d)`, while `unpack` of `job.go`
  declares three and has no failure path. The sources do not determine the fourth; it is the
  entry `unpackErr` of `Env`, left open.
-/

set_option linter.dupNamespace false
set_option maxRecDepth 100000

namespace Jobs

/-! ## Shared data model -/

/-- Go `error` values, identified by their message; `nil` is `none : Option Error`. -/
structure Error where
  msg : String
deriving DecidableEq, Repr

abbrev Bytes := List UInt8

/-- Modelled from the spec: the `jobs.Options` struct of the root package (not among the
sources); the four integer fields are the ones `pack` and `unpack` read and write. -/
structure Options where
  Attempts : Int
  Timeout : Int
  Delay : Int
  RetryDelay : Int
deriving DecidableEq, Repr

/-- Modelled from the spec: the `jobs.Job` struct of the root package (not among the
sources): job name, payload and options, as used by `pack`, `unpack` and `publish`. -/
structure Job where
  Job : String
  Payload : Bytes
  Options : Options
deriving DecidableEq, Repr

/-- Modelled from the spec: `Options.CanRetry` of the root package (not among the sources);
"`can_retry(attempt)` = true iff attempts==0 OR attempt<attempts". -/
def CanRetry (o : Options) (attempt : Int) : Bool :=
  o.Attempts == 0 || decide (attempt < o.Attempts)

/-- Modelled from the spec: `Options.RetryDuration` of the root package (not among the
sources); "`retry_duration()` = retry_delay (flat, no backoff growth)". -/
def RetryDuration (o : Options) : Int := o.RetryDelay

/-- Modelled from the spec: `Job.Body` of the root package (not among the sources);
"body = raw payload bytes". -/
def Body (j : Job) : Bytes := j.Payload

/-- A handler `func(id string, j *Job) error`: only its result matters to the engine. -/
abbrev Handler := String → Job → Option Error

def maxInt : Int := 2 ^ 63 - 1

/-- Two's complement wrap of an integer into the signed 64-bit range. -/
def wrap64 (x : Int) : Int := (x + 2 ^ 63) % 2 ^ 64 - 2 ^ 63

/-- Go `a + b` on `int`. -/
def addInt (a b : Int) : Int := wrap64 (a + b)

/-- Go `a * b` on `int64`. -/
def mulInt64 (a b : Int) : Int := wrap64 (a * b)

/-! ## `float64` arithmetic and `time.Duration` -/

/-- Number of binary digits of `n`, for `n < 2 ^ fuel`: `2 ^ (b - 1) ≤ n < 2 ^ b` for the
result `b` of a positive `n`. -/
def bitLen : Nat → Nat → Nat
  | 0, _ => 0
  | fuel + 1, n => if n = 0 then 0 else bitLen fuel (n / 2) + 1

/-- Round the positive ratio `n / d`, with `n` and `d` below `2 ^ 256`, to 53 significant
binary digits, ties to even, as every `float64` operation rounds its exact result. The
ratio is scaled by a power of two `2 ^ k2` so that its integer part `M` has exactly 53
binary digits; the remainder decides the last digit. The result is the ratio of the returned
pair. The exponent range is not limited: the values met here lie between 1e-9 and 1e13, far
inside the normal range of `float64`. -/
def round53 (n d : Nat) : Nat × Nat :=
  let k : Int := 53 + (bitLen 256 d : Int) - (bitLen 256 n : Int)
  let N := if 0 ≤ k then n * 2 ^ k.toNat else n
  let D := if 0 ≤ k then d else d * 2 ^ (-k).toNat
  let big := decide (2 ^ 53 * D ≤ N)
  let D2 := if big then 2 * D else D
  let k2 := if big then k - 1 else k
  let M := N / D2
  let R := N % D2
  let M2 := if D2 < 2 * R ∨ (2 * R = D2 ∧ M % 2 = 1) then M + 1 else M
  if 0 ≤ k2 then (M2, 2 ^ k2.toNat) else (M2 * 2 ^ (-k2).toNat, 1)

/-- A finite `float64` value, held as the exact ratio `num / den`. -/
structure F64 where
  num : Int
  den : Nat
deriving DecidableEq, Repr

/-- The `float64` nearest to the ratio `num / den`. -/
def F64.round (num : Int) (den : Nat) : F64 :=
  if num = 0 then { num := 0, den := 1 }
  else
    let r := round53 num.natAbs den
    { num := Int.sign num * r.1, den := r.2 }

/-- The conversion `float64(x)` of an integer, and an integer constant used as `float64`. -/
def F64.ofInt (x : Int) : F64 := F64.round x 1

/-- Go `a + b` on `float64`. -/
def F64.add (a b : F64) : F64 := F64.round (a.num * b.den + b.num * a.den) (a.den * b.den)

/-- Go `a * b` on `float64`. -/
def F64.mul (a b : F64) : F64 := F64.round (a.num * b.num) (a.den * b.den)

/-- Go `a / b` on `float64`, for `b` other than zero. -/
def F64.div (a b : F64) : F64 :=
  F64.round (a.num * b.den * Int.sign b.num) (a.den * b.num.natAbs)

/-- The conversion `int64(x)` of a `float64` in the range of `int64`: the fraction is
discarded. -/
def F64.toInt64 (a : F64) : Int := Int.tdiv a.num a.den

/-- The constant `time.Second`: a `time.Duration` counts nanoseconds. -/
def Second : Int := 1000000000

/-- The method `Duration.Seconds` of package `time`:
`sec := d / Second; nsec := d % Second; return float64(sec) + float64(nsec)/1e9`. -/
def Seconds (d : Int) : F64 :=
  let sec := Int.tdiv d Second
  let nsec := Int.tmod d Second
  F64.add (F64.ofInt sec) (F64.div (F64.ofInt nsec) (F64.ofInt 1000000000))

/-- The value of `delayMs` in `publish`: `int64(delay.Seconds() * 1000)`. -/
def delayMillis (delay : Int) : Int := F64.toInt64 (F64.mul (Seconds delay) (F64.ofInt 1000))

namespace Amqp

/-! ## `broker/amqp/job.go` -/

/-- A value stored in an `amqp.Table` (`map[string]interface{}`): a string, an int64, or a
value of any other dynamic type. -/
inductive HVal where
  | str (s : String)
  | int64 (v : Int)
  | other (tag : String)
deriving DecidableEq, Repr

/-- An `amqp.Table`; `Table.get` is the map lookup `t[k]`. -/
abbrev Table := List (String × HVal)

def Table.get (t : Table) (k : String) : Option HVal := List.lookup k t

/-- The type assertion `v.(string)` on a looked-up value (`nil` when the key is absent). -/
def asString : Option HVal → Option String
  | some (HVal.str s) => some s
  | _ => none

/-- The type assertion `v.(int64)` on a looked-up value. -/
def asInt64 : Option HVal → Option Int
  | some (HVal.int64 v) => some v
  | _ => none

/-- The part of `amqp.Delivery` the engine reads. -/
structure Delivery where
  Headers : Table
  Body : Bytes
deriving DecidableEq, Repr

/-- Pack job metadata into headers. -/
def pack (id : String) (attempt : Int) (j : Job) : Table :=
  [ ("rr-id", HVal.str id),
    ("rr-job", HVal.str j.Job),
    ("rr-attempt", HVal.int64 attempt),
    ("rr-maxAttempts", HVal.int64 j.Options.Attempts),
    ("rr-timeout", HVal.int64 j.Options.Timeout),
    ("rr-delay", HVal.int64 j.Options.Delay),
    ("rr-retryDelay", HVal.int64 j.Options.RetryDelay) ]

/-- Unpack restores jobs.Options: every field starts at its zero value and is overwritten
only when its header is present with the asserted type. -/
def unpack (d : Delivery) : String × Int × Job :=
  let id := (asString (d.Headers.get "rr-id")).getD ""
  let attempt := (asInt64 (d.Headers.get "rr-attempt")).getD 0
  let name := (asString (d.Headers.get "rr-job")).getD ""
  let attempts := (asInt64 (d.Headers.get "rr-maxAttempts")).getD 0
  let timeout := (asInt64 (d.Headers.get "rr-timeout")).getD 0
  let delay := (asInt64 (d.Headers.get "rr-delay")).getD 0
  let retryDelay := (asInt64 (d.Headers.get "rr-retryDelay")).getD 0
  (id, attempt,
    { Job := name, Payload := d.Body,
      Options := { Attempts := attempts, Timeout := timeout, Delay := delay,
                   RetryDelay := retryDelay } })

/-- Field `x` follows the string header `k` of `t`: it is the header's value when the header
is present as a string, and the empty string otherwise. -/
def StrField (t : Table) (k : String) (x : String) : Prop :=
  (∀ s, t.get k = some (HVal.str s) → x = s) ∧ ((∀ s, t.get k ≠ some (HVal.str s)) → x = "")

/-- Field `x` follows the int64 header `k` of `t`: it is the header's value when the header
is present as an int64, and zero otherwise. -/
def IntField (t : Table) (k : String) (x : Int) : Prop :=
  (∀ v, t.get k = some (HVal.int64 v) → x = v) ∧ ((∀ v, t.get k ≠ some (HVal.int64 v)) → x = 0)

/-- The function `f` of a delivery reads the string header `k` and nothing else: it is empty
without headers, it is the value of a first entry `k` that holds a string and empty for one
that holds anything else, and an entry under another key in front changes nothing. -/
def ReadsStr (f : Delivery → String) (k : String) : Prop :=
  (∀ b, f { Headers := [], Body := b } = "") ∧
  (∀ t b s, f { Headers := (k, HVal.str s) :: t, Body := b } = s) ∧
  (∀ t b v, (∀ s, v ≠ HVal.str s) → f { Headers := (k, v) :: t, Body := b } = "") ∧
  (∀ t b k2 v, k2 ≠ k →
    f { Headers := (k2, v) :: t, Body := b } = f { Headers := t, Body := b })

/-- The function `f` of a delivery reads the int64 header `k` and nothing else: it is zero
without headers, it is the value of a first entry `k` that holds an int64 and zero for one
that holds anything else, and an entry under another key in front changes nothing. -/
def ReadsInt (f : Delivery → Int) (k : String) : Prop :=
  (∀ b, f { Headers := [], Body := b } = 0) ∧
  (∀ t b x, f { Headers := (k, HVal.int64 x) :: t, Body := b } = x) ∧
  (∀ t b v, (∀ x, v ≠ HVal.int64 x) → f { Headers := (k, v) :: t, Body := b } = 0) ∧
  (∀ t b k2 v, k2 ≠ k →
    f { Headers := (k2, v) :: t, Body := b } = f { Headers := t, Body := b })

/-! ## `broker/amqp/queue.go` -/

/-- The configured part of the `queue` struct: exchange and queue name. -/
structure Queue where
  exchange : String
  name : String
deriving DecidableEq, Repr

/-- An `amqp.Publishing` as filled in by `publish`. -/
structure Publishing where
  ContentType : String
  Body : Bytes
  DeliveryMode : Nat
  Headers : Table
deriving DecidableEq, Repr

/-- The constant `amqp.Persistent`. -/
def Persistent : Nat := 2

/-- Calls made by the engine, in program order. -/
inductive Op where
  /-- Call `h(id, j)` of the handler -/
  | handler (id : String) (j : Job)
  /-- Call `q.err(id, j, err)` of the error sink -/
  | errSink (id : String) (j : Job) (e : Error)
  /-- Call `q.report(err)`: the listener receives `EventPipelineError` caused by `err` -/
  | report (e : Error)
  /-- Call `d.Ack(multiple)` -/
  | ack (multiple : Bool)
  /-- Call `d.Nack(multiple, requeue)` -/
  | nack (multiple requeue : Bool)
  /-- Call `cp.channel(key)` -/
  | channel (key : String)
  /-- Statement `go cp.release(c, err)` -/
  | release (e : Error)
  /-- Call `c.ch.ExchangeDeclare(name, kind, durable, autoDelete, internal, noWait, nil)` -/
  | exchangeDeclare (name kind : String) (durable autoDelete internal noWait : Bool)
  /-- Call `c.ch.QueueDeclare(name, durable, autoDelete, exclusive, noWait, args)` -/
  | queueDeclare (name : String) (durable autoDelete exclusive noWait : Bool) (args : Table)
  /-- Call `c.ch.QueueBind(name, key, exchange, noWait, nil)` -/
  | queueBind (name key exchange : String) (noWait : Bool)
  /-- Call `c.ch.Publish(exchange, key, mandatory, immediate, msg)` -/
  | publish (exchange key : String) (mandatory immediate : Bool) (msg : Publishing)
deriving DecidableEq, Repr

/-- What the processing of one delivery receives from outside the functions embedded here:
the results of the external calls, and the error bound at the call of `unpack`. -/
structure Env where
  /-- The fourth result bound by `id, attempt, j, err := unpack(d)` in `do`. `unpack` of
  `job.go` declares three results and has no failure path, so this value is left open. -/
  unpackErr : Option Error
  /-- Result of `cp.channel(q.name)` in `publish` -/
  channelErr : Option Error
  /-- Result of `cp.channel(q.name)` in `declare` -/
  declChannelErr : Option Error
  exchangeDeclareErr : Option Error
  queueDeclareErr : Option Error
  queueBindErr : Option Error
  publishErr : Option Error
  ackErr : Option Error
  nackErr : Option Error
deriving DecidableEq, Repr

/-- Every external call succeeds and the call of `unpack` binds no error. -/
def Env.ok : Env :=
  { unpackErr := none, channelErr := none, declChannelErr := none, exchangeDeclareErr := none,
    queueDeclareErr := none, queueBindErr := none, publishErr := none,
    ackErr := none, nackErr := none }

/-- Declare queue and binding to it. -/
def declare (q : Queue) (env : Env) (queue key : String) (args : Table) :
    List Op × Option Error :=
  match env.declChannelErr with
  | some e => ([Op.channel q.name], some e)
  | none =>
    match env.exchangeDeclareErr with
    | some e =>
      ([Op.channel q.name, Op.exchangeDeclare q.exchange "direct" true false false false,
        Op.release e], some e)
    | none =>
      match env.queueDeclareErr with
      | some e =>
        ([Op.channel q.name, Op.exchangeDeclare q.exchange "direct" true false false false,
          Op.queueDeclare queue true false false false args, Op.release e], some e)
      | none =>
        match env.queueBindErr with
        | some e =>
          ([Op.channel q.name, Op.exchangeDeclare q.exchange "direct" true false false false,
            Op.queueDeclare queue true false false false args,
            Op.queueBind queue key q.exchange false, Op.release e], some e)
        | none =>
          ([Op.channel q.name, Op.exchangeDeclare q.exchange "direct" true false false false,
            Op.queueDeclare queue true false false false args,
            Op.queueBind queue key q.exchange false], none)

/-- The name `fmt.Sprintf("delayed-%d.%s.%s", delayMs, q.exchange, q.name)`. -/
def delayedName (delayMs : Int) (exchange name : String) : String :=
  "delayed-" ++ toString delayMs ++ "." ++ exchange ++ "." ++ name

/-- The arguments table of the delayed queue. -/
def delayedArgs (q : Queue) (delayMs : Int) : Table :=
  [ ("x-dead-letter-exchange", HVal.str q.exchange),
    ("x-dead-letter-routing-key", HVal.str q.name),
    ("x-message-ttl", HVal.int64 delayMs),
    ("x-expires", HVal.int64 (mulInt64 delayMs 2)) ]

/-- The `amqp.Publishing` built by `publish`. -/
def message (id : String) (attempt : Int) (j : Job) : Publishing :=
  { ContentType := "application/octet-stream", Body := Body j,
    DeliveryMode := Persistent, Headers := pack id attempt j }

/-- The final `c.ch.Publish` call of `publish` with routing key `qName`. -/
def publishCall (q : Queue) (env : Env) (qName id : String) (attempt : Int) (j : Job) :
    List Op × Option Error :=
  let call := Op.publish q.exchange qName false false (message id attempt j)
  match env.publishErr with
  | some e => ([call, Op.release e], some e)
  | none => ([call], none)

/-- Publish message to queue or to delayed queue. `ms delay` is
`int64(delay.Seconds() * 1000)`; the program's conversion is `delayMillis`. -/
def publish (ms : Int → Int) (q : Queue) (env : Env) (id : String) (attempt : Int) (j : Job)
    (delay : Int) : List Op × Option Error :=
  match env.channelErr with
  | some e => ([Op.channel q.name], some e)
  | none =>
    if delay ≠ 0 then
      let delayMs := ms delay
      let qName := delayedName delayMs q.exchange q.name
      let r := declare q env qName qName (delayedArgs q delayMs)
      match r.2 with
      | some e => (Op.channel q.name :: r.1, some e)
      | none =>
        let p := publishCall q env qName id attempt j
        (Op.channel q.name :: (r.1 ++ p.1), p.2)
    else
      let p := publishCall q env q.name id attempt j
      (Op.channel q.name :: p.1, p.2)

/-- The method `queue.do`: run the handler on one delivery and settle the delivery. The
result is the trace of calls and the error returned to `serve`. -/
def queueDo (ms : Int → Int) (q : Queue) (env : Env) (h : Handler) (d : Delivery) :
    List Op × Option Error :=
  let u := unpack d
  let id := u.1
  let attempt := u.2.1
  let j := u.2.2
  match env.unpackErr with
  | some e => ([Op.report e, Op.nack false false], env.nackErr)
  | none =>
    match h id j with
    | none => ([Op.handler id j, Op.ack false], env.ackErr)
    | some e =>
      if !CanRetry j.Options attempt then
        ([Op.handler id j, Op.errSink id j e, Op.nack false false], env.nackErr)
      else
        let p := publish ms q env id (addInt attempt 1) j (RetryDuration j.Options)
        match p.2 with
        | some pe =>
          ([Op.handler id j, Op.errSink id j e] ++ p.1 ++ [Op.report pe, Op.nack false true],
            env.nackErr)
        | none =>
          ([Op.handler id j, Op.errSink id j e] ++ p.1 ++ [Op.ack false], env.ackErr)

/-- The goroutine body started by `serve` for one delivery: `do`, then a report of the
error `do` returned. -/
def serveJob (ms : Int → Int) (q : Queue) (env : Env) (h : Handler) (d : Delivery) :
    List Op :=
  let r := queueDo ms q env h d
  match r.2 with
  | some e => r.1 ++ [Op.report e]
  | none => r.1

/-! ### The transport seen from the engine

A published message comes back as a delivery with the same headers and body (directly, or
by dead-lettering once the delayed queue's TTL has passed); a delivery that was nacked with
requeue comes back unchanged; an acked or rejected delivery never comes back. -/

/-- The message handed to `c.ch.Publish` in a trace, if any. -/
def published : List Op → Option Publishing
  | [] => none
  | Op.publish _ _ _ _ msg :: _ => some msg
  | _ :: t => published t

/-- Whether the trace requeues the delivery (`d.Nack(_, true)`). -/
def requeued : List Op → Bool
  | [] => false
  | Op.nack _ r :: t => r || requeued t
  | _ :: t => requeued t

/-- The delivery processed after `d`, given the trace of processing `d`. -/
def nextDelivery (d : Delivery) (t : List Op) : Option Delivery :=
  if requeued t then some d
  else match published t with
    | some msg => some { Headers := msg.Headers, Body := msg.Body }
    | none => none

/-- The life of one job on the network backend: the delivery is processed, and deliveries
that follow from it are processed in turn, at most `fuel` of them. The `n`-th invocation uses
handler `h n`. The result is the whole trace and whether the life has ended. -/
def life (ms : Int → Int) (q : Queue) (env : Env) (h : Nat → Handler) :
    Nat → Nat → Delivery → List Op × Bool
  | 0, _, _ => ([], false)
  | fuel + 1, n, d =>
    let t := serveJob ms q env (h n) d
    match nextDelivery d t with
    | none => (t, true)
    | some d2 =>
      let r := life ms q env h fuel (n + 1) d2
      (t ++ r.1, r.2)

/-- Number of handler invocations in a trace. -/
def handlerCalls (t : List Op) : Nat :=
  (t.filter (fun o => match o with | Op.handler _ _ => true | _ => false)).length

/-- Number of error sink invocations in a trace. -/
def errSinkCalls (t : List Op) : Nat :=
  (t.filter (fun o => match o with | Op.errSink _ _ _ => true | _ => false)).length

/-- Whether a call settles the delivery: an ack or a nack. -/
def isSettle : Op → Bool
  | Op.ack _ => true
  | Op.nack _ _ => true
  | _ => false

/-- Whether a call belongs to the engine's side of processing rather than to the publish
path: handler, error sink, report, ack or nack. -/
def isEngine : Op → Bool
  | Op.handler _ _ => true
  | Op.errSink _ _ _ => true
  | Op.report _ => true
  | Op.ack _ => true
  | Op.nack _ _ => true
  | _ => false

/-- Number of `Publish` calls in a trace. -/
def publishCalls (t : List Op) : Nat :=
  (t.filter (fun o => match o with | Op.publish _ _ _ _ _ => true | _ => false)).length

/-! ### `serve` after stop, and the in-flight mutex `muw` -/

/-- Lock-related steps of `serve` and `stop`, tagged by the goroutine performing them. -/
inductive Who where
  | serve
  | stop
deriving DecidableEq, Repr

inductive SOp where
  | muwLock (w : Who)
  | muwUnlock (w : Who)
  | wgAdd
  | wgWait
  | lease
  | spawn
deriving DecidableEq, Repr

/-- One pass through the body of `for d := range delivery` in `serve`: the steps performed
and whether `serve` returns. -/
def serveDelivery (active : Int) : List SOp × Bool :=
  if active == 0 then
    ([SOp.muwUnlock Who.serve], true)
  else
    ([SOp.muwLock Who.serve, SOp.wgAdd, SOp.muwUnlock Who.serve, SOp.lease, SOp.spawn], false)

/-- The mutex `muw` as `sync.RWMutex` behaves under `Lock` and `Unlock`: `Unlock` of an
unlocked mutex is a fatal run-time error (`none`), whoever calls it; `Lock` needs it free. -/
def muwStep (locked : Bool) : SOp → Option Bool
  | SOp.muwLock _ => if locked then none else some true
  | SOp.muwUnlock _ => if locked then some false else none
  | _ => some locked

/-- Run a sequence of steps on the mutex; `none` is the fatal error. -/
def muwRun : Bool → List SOp → Option Bool
  | b, [] => some b
  | b, o :: t => match muwStep b o with
    | none => none
    | some b2 => muwRun b2 t

/-- Whether every `Unlock` by `w` in the sequence is preceded by a still-held `Lock` by `w`;
`held` is the number of locks `w` holds on entry. -/
def lockDiscipline (w : Who) : Nat → List SOp → Bool
  | _, [] => true
  | held, SOp.muwLock v :: t =>
    if v = w then lockDiscipline w (held + 1) t else lockDiscipline w held t
  | held, SOp.muwUnlock v :: t =>
    if v = w then (held != 0 && lockDiscipline w (held - 1) t) else lockDiscipline w held t
  | held, _ :: t => lockDiscipline w held t

/-! ### The handler pool in `serve` -/

/-- What the concurrency of `serve` depends on: `pool` handlers waiting in `execPool`,
whether the loop holds a delivery it has counted in the wait-group (`pending`), `running`
goroutines inside `q.do`, and `returning` goroutines past `q.do` that have not yet put their
handler back. -/
structure SState where
  pool : Nat
  pending : Bool
  running : Nat
  returning : Nat
deriving DecidableEq, Repr

inductive Step where
  /-- The range over the delivery channel yields `d`; `wg.Add(1)` -/
  | take
  /-- Receive `h := <-q.execPool` and start the goroutine -/
  | lease
  /-- Call `q.do` returns in one goroutine -/
  | finish
  /-- Send `q.execPool <- h` in one goroutine -/
  | giveBack
deriving DecidableEq, Repr

/-- One step of `serve` or of one of its goroutines; `none` when the step is blocked. -/
def step : Step → SState → Option SState
  | Step.take, s => if s.pending then none else some { s with pending := true }
  | Step.lease, s =>
    if s.pending && decide (0 < s.pool) then
      some { s with pool := s.pool - 1, pending := false, running := s.running + 1 }
    else none
  | Step.finish, s =>
    if 0 < s.running then
      some { s with running := s.running - 1, returning := s.returning + 1 }
    else none
  | Step.giveBack, s =>
    if 0 < s.returning then
      some { s with returning := s.returning - 1, pool := s.pool + 1 }
    else none

/-- The state after a sequence of steps, if none of them is blocked. -/
def run : List Step → SState → Option SState
  | [], s => some s
  | a :: t, s => match step a s with
    | none => none
    | some s2 => run t s2

/-- The loop starts with `k` handlers in the pool and nothing running. -/
def init (k : Nat) : SState := { pool := k, pending := false, running := 0, returning := 0 }

/-- Handlers executing: goroutines started by `serve` that still hold their handler. -/
def executing (s : SState) : Nat := s.running + s.returning

end Amqp

namespace Ephemeral

/-! ## `broker/ephemeral/queue.go` -/

/-- Modelled from the spec: the counters of `jobs.Stat` of the root package (not among the
sources): "{queue≥0, active≥0, delayed≥0, backend_name}". -/
structure Stat where
  Queue : Int
  Active : Int
  Delayed : Int
deriving DecidableEq, Repr

structure Entry where
  id : String
  job : Job
  attempt : Int
deriving DecidableEq, Repr

/-- Calls made by `do`, in program order. -/
inductive Ev where
  /-- Call `h(e.id, e.job)` of the handler -/
  | handler (id : String) (j : Job)
  /-- Call `q.errHandler(e.id, e.job, err)` -/
  | errHandler (id : String) (j : Job) (e : Error)
  /-- Call `q.push(id, j, attempt, delay)` -/
  | push (id : String) (j : Job) (attempt delay : Int)
deriving DecidableEq, Repr

/-- The queue with the goroutines that belong to it: the counters `st`; `sleeping`, the
goroutines of `push` inside `time.Sleep(delay)`; `jobs`, the goroutines blocked sending
their entry on `q.jobs`; `held`, the entries received by `consume` whose goroutine has not
finished; `log`, the calls made so far. -/
structure Q where
  st : Stat
  sleeping : List Entry
  jobs : List Entry
  held : List Entry
  log : List Ev
deriving DecidableEq, Repr

/-- The queue made by `newQueue`. -/
def newQueue : Q :=
  { st := { Queue := 0, Active := 0, Delayed := 0 }, sleeping := [], jobs := [], held := [],
    log := [] }

/-- Add job to the queue. -/
def push (q : Q) (id : String) (j : Job) (attempt delay : Int) : Q :=
  if delay == 0 then
    { q with st := { q.st with Queue := addInt q.st.Queue 1 },
             jobs := q.jobs ++ [{ id := id, job := j, attempt := attempt }] }
  else
    { q with st := { q.st with Delayed := addInt q.st.Delayed 1 },
             sleeping := q.sleeping ++ [{ id := id, job := j, attempt := attempt }] }

/-- The delay of a sleeping goroutine of `push` has elapsed: it moves the job from the
delayed to the queue counter and starts sending the entry. -/
def wake (q : Q) (e : Entry) : Option Q :=
  if e ∈ q.sleeping then
    some { q with st := { q.st with Delayed := addInt q.st.Delayed (-1),
                                    Queue := addInt q.st.Queue 1 },
                  sleeping := q.sleeping.erase e, jobs := q.jobs ++ [e] }
  else none

/-- The loop of `serve` receives entry `e` through `consume` and counts it as active. -/
def consume (q : Q) (e : Entry) : Option Q :=
  if e ∈ q.jobs then
    some { q with st := { q.st with Active := addInt q.st.Active 1 },
                  jobs := q.jobs.erase e, held := e :: q.held }
  else none

/-- Do single job. -/
def queueDo (q : Q) (h : Handler) (e : Entry) : Q :=
  match h e.id e.job with
  | none =>
    { q with st := { q.st with Queue := addInt q.st.Queue (-1) },
             log := q.log ++ [Ev.handler e.id e.job] }
  | some err =>
    let q1 := { q with log := q.log ++ [Ev.handler e.id e.job, Ev.errHandler e.id e.job err] }
    if !CanRetry e.job.Options e.attempt then
      { q1 with st := { q1.st with Queue := addInt q1.st.Queue (-1) } }
    else
      let d := RetryDuration e.job.Options
      push { q1 with log := q1.log ++ [Ev.push e.id e.job (addInt e.attempt 1) d] }
        e.id e.job (addInt e.attempt 1) d

/-- The goroutine started by `serve` for a held entry: `do`, then the active counter goes
down. -/
def finish (q : Q) (h : Handler) (e : Entry) : Option Q :=
  if e ∈ q.held then
    let q1 := queueDo { q with held := q.held.erase e } h e
    some { q1 with st := { q1.st with Active := addInt q1.st.Active (-1) } }
  else none

/-- The number of jobs waiting for or held by a handler. -/
def waitingOrHeld (q : Q) : Nat := q.jobs.length + q.held.length

/-- Number of handler invocations so far. -/
def handlerCalls (q : Q) : Nat :=
  (q.log.filter (fun o => match o with | Ev.handler _ _ => true | _ => false)).length

/-- Number of calls of `push` made by `do` so far. -/
def pushCalls (q : Q) : Nat :=
  (q.log.filter (fun o => match o with | Ev.push _ _ _ _ => true | _ => false)).length

/-- The next entry `serve` receives: the first one being sent, or, when none is, the first
sleeping one once its delay has elapsed. -/
def next (q : Q) : Option (Entry × Q) :=
  match q.jobs with
  | e :: _ => (consume q e).map (fun q1 => (e, q1))
  | [] =>
    match q.sleeping with
    | e :: _ => ((wake q e).bind (fun q1 => consume q1 e)).map (fun q1 => (e, q1))
    | [] => none

/-- The life of the jobs in the queue, one entry at a time, at most `fuel` of them; the
`n`-th invocation uses handler `h n`. The result is the final queue and whether no entry is
left. -/
def life (h : Nat → Handler) : Nat → Nat → Q → Q × Bool
  | 0, _, q => (q, false)
  | fuel + 1, n, q =>
    match next q with
    | none => (q, true)
    | some (e, q1) =>
      match finish q1 (h n) e with
      | none => (q1, false)
      | some q2 => life h fuel (n + 1) q2

/-! ### The handler pool and the claim semaphore in `serve` -/

/-- Where the loop of `serve` stands: before `consume`, after it, or after taking a token
from `concurPool` (when there is one) and counting the job as active. -/
inductive Phase where
  | idle
  | claimed
  | cleared
deriving DecidableEq, Repr

/-- What the concurrency of `serve` depends on: `pool` handlers in `execPool`, `tokens` in
`concurPool`, the phase of the loop, `running` goroutines inside `q.do`, `returning` ones
past `q.do` that still hold their handler, `releasing` ones that have put the handler back
but not yet their token. -/
structure SState where
  pool : Nat
  tokens : Nat
  phase : Phase
  running : Nat
  returning : Nat
  releasing : Nat
deriving DecidableEq, Repr

inductive Step where
  /-- Call `q.consume()` returns an entry -/
  | claim
  /-- Receive `<-q.concurPool` when the pool exists; count the job as active -/
  | pass
  /-- Receive `h := <-q.execPool` and start the goroutine -/
  | lease
  /-- Call `q.do` returns in one goroutine -/
  | finish
  /-- Send `q.execPool <- h` in one goroutine -/
  | giveBack
  /-- Send `q.concurPool <- nil` when the pool exists, then `wg.Done()` -/
  | release
deriving DecidableEq, Repr

/-- One step of `serve` or of one of its goroutines, for a queue made by
`newQueue(c)`; `none` when the step is blocked. -/
def step (c : Nat) : Step → SState → Option SState
  | Step.claim, s => if s.phase = Phase.idle then some { s with phase := Phase.claimed } else none
  | Step.pass, s =>
    if s.phase = Phase.claimed then
      if c = 0 then some { s with phase := Phase.cleared }
      else if 0 < s.tokens then some { s with tokens := s.tokens - 1, phase := Phase.cleared }
      else none
    else none
  | Step.lease, s =>
    if s.phase = Phase.cleared ∧ 0 < s.pool then
      some { s with pool := s.pool - 1, phase := Phase.idle, running := s.running + 1 }
    else none
  | Step.finish, s =>
    if 0 < s.running then
      some { s with running := s.running - 1, returning := s.returning + 1 }
    else none
  | Step.giveBack, s =>
    if 0 < s.returning then
      some { s with returning := s.returning - 1, pool := s.pool + 1,
                    releasing := s.releasing + 1 }
    else none
  | Step.release, s =>
    if 0 < s.releasing then
      some { s with releasing := s.releasing - 1,
                    tokens := if c = 0 then s.tokens else s.tokens + 1 }
    else none

/-- The state after a sequence of steps, if none of them is blocked. -/
def run (c : Nat) : List Step → SState → Option SState
  | [], s => some s
  | a :: t, s => match step c a s with
    | none => none
    | some s2 => run c t s2

/-- The loop starts with `k` handlers in the pool, the `c` tokens `newQueue(c)` put in
`concurPool`, and nothing running. -/
def init (k c : Nat) : SState :=
  { pool := k, tokens := c, phase := Phase.idle, running := 0, returning := 0,
    releasing := 0 }

/-- Handlers executing: goroutines started by `serve` that still hold their handler. -/
def executing (s : SState) : Nat := s.running + s.returning

end Ephemeral

end Jobs

namespace Jobs

/-! ## Sample inputs -/

/-- A pipeline on exchange `amqp.direct` (the default of `newQueue`) with queue `default`. -/
def sampleQueue : Amqp.Queue := { exchange := "amqp.direct", name := "default" }

/-- A job with the given attempts and retry delay. -/
def sampleJob (attempts retryDelay : Int) : Job :=
  { Job := "app.job", Payload := [1, 2, 3],
    Options := { Attempts := attempts, Timeout := 0, Delay := 0, RetryDelay := retryDelay } }

/-- A conversion to milliseconds for sample inputs: delays counted in whole seconds. -/
def sampleMs (delay : Int) : Int := delay * 1000

/-- A handler that fails on every invocation. -/
def alwaysFail : Nat → Handler := fun _ _ _ => some { msg := "failed" }

/-- A handler that fails on its first invocation and succeeds afterwards. -/
def failOnce : Nat → Handler := fun n _ _ => if n = 0 then some { msg := "failed" } else none

/-- A delivery with a well-typed id and attempts, a mistyped attempt and job name, a header
the engine does not know, and no timeout, delay or retry delay. -/
def mixedDelivery : Amqp.Delivery :=
  { Headers := [("rr-id", Amqp.HVal.str "id-7"), ("rr-attempt", Amqp.HVal.str "two"),
                ("x-trace", Amqp.HVal.other "bool"), ("rr-maxAttempts", Amqp.HVal.int64 3),
                ("rr-job", Amqp.HVal.int64 9)],
    Body := [7] }

/-- The outcome record in which the call of `unpack` binds an error. -/
def unpackFails : Amqp.Env :=
  { Amqp.Env.ok with unpackErr := some { msg := "missing header rr-id" } }

/-- The outcome record in which the `Publish` call fails. -/
def publishFails : Amqp.Env :=
  { Amqp.Env.ok with publishErr := some { msg := "channel closed" } }

/-- The first delivery of a job: attempt 0. -/
def firstDelivery (id : String) (j : Job) : Amqp.Delivery :=
  { Headers := Amqp.pack id 0 j, Body := Body j }

end Jobs

namespace Jobs

/-! ## Arithmetic helpers -/

theorem wrap64_of_range (x : Int) (h1 : -(2 ^ 63) ≤ x) (h2 : x < 2 ^ 63) : wrap64 x = x := by
  unfold wrap64
  omega

theorem addInt_one (a : Int) (h1 : -(2 ^ 63) ≤ a) (h2 : a < maxInt) : addInt a 1 = a + 1 := by
  unfold addInt
  unfold maxInt at h2
  apply wrap64_of_range <;> omega

theorem mulInt64_two (a : Int) (h1 : -(2 ^ 62) ≤ a) (h2 : a < 2 ^ 62) : mulInt64 a 2 = 2 * a := by
  unfold mulInt64
  rw [wrap64_of_range] <;> omega

namespace Amqp

/-! ## Wire mapping -/

theorem unpack_pack_eq (id : String) (attempt : Int) (j : Job) (body : Bytes) :
    unpack { Headers := pack id attempt j, Body := body } =
      (id, attempt, { Job := j.Job, Payload := body, Options := j.Options }) := by
  simp [unpack, pack, Table.get, List.lookup, asString, asInt64]

theorem strField_getD (t : Table) (k : String) :
    StrField t k ((asString (t.get k)).getD "") := by
  constructor
  · intro s hs
    simp [hs, asString]
  · intro hno
    cases hk : t.get k with
    | none => simp [asString]
    | some v =>
      cases v with
      | str s => exact absurd hk (hno s)
      | int64 v => simp [asString]
      | other g => simp [asString]

theorem intField_getD (t : Table) (k : String) :
    IntField t k ((asInt64 (t.get k)).getD 0) := by
  constructor
  · intro v hv
    simp [hv, asInt64]
  · intro hno
    cases hk : t.get k with
    | none => simp [asInt64]
    | some v =>
      cases v with
      | str s => simp [asInt64]
      | int64 v => exact absurd hk (hno v)
      | other g => simp [asInt64]

/-- C1: unpacking a delivery whose headers are `pack id attempt j` gives back the same id,
the same attempt, the same job name and the same four option fields, and the payload of the
unpacked job is the body of the delivery. -/
theorem pack_unpack_roundtrip (id : String) (attempt : Int) (j : Job) (body : Bytes) :
    (unpack { Headers := pack id attempt j, Body := body }).1 = id ∧
    (unpack { Headers := pack id attempt j, Body := body }).2.1 = attempt ∧
    (unpack { Headers := pack id attempt j, Body := body }).2.2.Job = j.Job ∧
    (unpack { Headers := pack id attempt j, Body := body }).2.2.Options.Attempts
      = j.Options.Attempts ∧
    (unpack { Headers := pack id attempt j, Body := body }).2.2.Options.Timeout
      = j.Options.Timeout ∧
    (unpack { Headers := pack id attempt j, Body := body }).2.2.Options.Delay
      = j.Options.Delay ∧
    (unpack { Headers := pack id attempt j, Body := body }).2.2.Options.RetryDelay
      = j.Options.RetryDelay ∧
    (unpack { Headers := pack id attempt j, Body := body }).2.2.Payload = body := by
  rw [unpack_pack_eq]
  simp

theorem get_nil (k : String) : Table.get [] k = none := rfl

theorem get_cons_self (k : String) (v : HVal) (t : Table) :
    Table.get ((k, v) :: t) k = some v := by
  simp [Table.get, List.lookup]

theorem get_cons_of_ne (k k2 : String) (v : HVal) (t : Table) (h : k2 ≠ k) :
    Table.get ((k2, v) :: t) k = Table.get t k := by
  have hb : (k == k2) = false := by
    simp only [beq_eq_false_iff_ne, ne_eq]
    exact fun hk => h hk.symm
  simp [Table.get, List.lookup, hb]

theorem readsStr_of (f : Delivery → String) (k : String)
    (hf : ∀ d, f d = (asString (d.Headers.get k)).getD "") : ReadsStr f k := by
  refine ⟨fun b => ?_, fun t b s => ?_, fun t b v hv => ?_, fun t b k2 v hk => ?_⟩
  · rw [hf]
    rfl
  · rw [hf]
    simp only [get_cons_self]
    rfl
  · rw [hf]
    simp only [get_cons_self]
    cases v with
    | str s => exact absurd rfl (hv s)
    | int64 x => rfl
    | other g => rfl
  · rw [hf, hf]
    simp only [get_cons_of_ne k k2 v t hk]

theorem readsInt_of (f : Delivery → Int) (k : String)
    (hf : ∀ d, f d = (asInt64 (d.Headers.get k)).getD 0) : ReadsInt f k := by
  refine ⟨fun b => ?_, fun t b x => ?_, fun t b v hv => ?_, fun t b k2 v hk => ?_⟩
  · rw [hf]
    rfl
  · rw [hf]
    simp only [get_cons_self]
    rfl
  · rw [hf]
    simp only [get_cons_self]
    cases v with
    | str s => rfl
    | int64 x => exact absurd rfl (hv x)
    | other g => rfl
  · rw [hf, hf]
    simp only [get_cons_of_ne k k2 v t hk]

/-- C2 (amended): `unpack` is total and has no error result. Each of id, attempt, job name,
attempts, timeout, delay and retry delay is the value of its own header when that header is
present with the expected type and the zero value otherwise, and reads no other header; the
payload is the body. `do` rejects the delivery before any handler runs, with a report and a
nack without requeue, exactly when the error bound at its call of `unpack` is non-nil;
when that error is nil the handler is its first call whatever the headers are, and a
delivery whose handler succeeds is acknowledged. -/
theorem unpack_defensive_reject_only_on_unpack_error (d : Delivery) :
    StrField d.Headers "rr-id" (unpack d).1 ∧
    IntField d.Headers "rr-attempt" (unpack d).2.1 ∧
    StrField d.Headers "rr-job" (unpack d).2.2.Job ∧
    IntField d.Headers "rr-maxAttempts" (unpack d).2.2.Options.Attempts ∧
    IntField d.Headers "rr-timeout" (unpack d).2.2.Options.Timeout ∧
    IntField d.Headers "rr-delay" (unpack d).2.2.Options.Delay ∧
    IntField d.Headers "rr-retryDelay" (unpack d).2.2.Options.RetryDelay ∧
    (unpack d).2.2.Payload = d.Body ∧
    ReadsStr (fun x => (unpack x).1) "rr-id" ∧
    ReadsInt (fun x => (unpack x).2.1) "rr-attempt" ∧
    ReadsStr (fun x => (unpack x).2.2.Job) "rr-job" ∧
    ReadsInt (fun x => (unpack x).2.2.Options.Attempts) "rr-maxAttempts" ∧
    ReadsInt (fun x => (unpack x).2.2.Options.Timeout) "rr-timeout" ∧
    ReadsInt (fun x => (unpack x).2.2.Options.Delay) "rr-delay" ∧
    ReadsInt (fun x => (unpack x).2.2.Options.RetryDelay) "rr-retryDelay" ∧
    (∀ (ms : Int → Int) (q : Queue) (env : Env) (h : Handler), env.unpackErr = none →
      ∃ rest, (queueDo ms q env h d).1 = Op.handler (unpack d).1 (unpack d).2.2 :: rest) ∧
    (∀ (ms : Int → Int) (q : Queue) (env : Env) (h : Handler), env.unpackErr = none →
      h (unpack d).1 (unpack d).2.2 = none →
        queueDo ms q env h d =
          ([Op.handler (unpack d).1 (unpack d).2.2, Op.ack false], env.ackErr)) ∧
    (∀ (ms : Int → Int) (q : Queue) (env : Env) (h : Handler) (e : Error),
      env.unpackErr = some e →
        queueDo ms q env h d = ([Op.report e, Op.nack false false], env.nackErr)) := by
  refine ⟨strField_getD _ _, intField_getD _ _, strField_getD _ _,
    intField_getD _ _, intField_getD _ _, intField_getD _ _, intField_getD _ _, rfl,
    readsStr_of _ _ (fun _ => rfl), readsInt_of _ _ (fun _ => rfl),
    readsStr_of _ _ (fun _ => rfl), readsInt_of _ _ (fun _ => rfl),
    readsInt_of _ _ (fun _ => rfl), readsInt_of _ _ (fun _ => rfl),
    readsInt_of _ _ (fun _ => rfl), ?_, ?_, ?_⟩
  · intro ms q env h hu
    simp only [queueDo, hu]
    cases h (unpack d).1 (unpack d).2.2 with
    | none => exact ⟨_, rfl⟩
    | some e =>
      simp only
      split
      · exact ⟨_, rfl⟩
      · split <;> exact ⟨_, rfl⟩
  · intro ms q env h hu hok
    simp only [queueDo, hu, hok]
  · intro ms q env h e hu
    simp only [queueDo, hu]

end Amqp
end Jobs

namespace Jobs
namespace Amqp

/-! ## Publish -/

theorem declare_engine_free (q : Queue) (env : Env) (queue key : String) (args : Table) :
    ∀ o ∈ (declare q env queue key args).1, isEngine o = false := by
  unfold declare
  cases env.declChannelErr <;> cases env.exchangeDeclareErr <;> cases env.queueDeclareErr <;>
    cases env.queueBindErr <;> simp [isEngine]

theorem publish_engine_free (ms : Int → Int) (q : Queue) (env : Env) (id : String)
    (attempt : Int) (j : Job) (delay : Int) :
    ∀ o ∈ (publish ms q env id attempt j delay).1, isEngine o = false := by
  have hd := declare_engine_free q env
  unfold publish publishCall
  cases hc : env.channelErr with
  | some e => simp [isEngine]
  | none =>
    simp only
    split
    · split
      · intro o ho
        rcases List.mem_cons.mp ho with h | h
        · subst h; rfl
        · exact hd _ _ _ o h
      · cases env.publishErr <;>
        · intro o ho
          simp only [List.mem_cons, List.mem_append] at ho
          rcases ho with h | h | h
          · subst h; rfl
          · exact hd _ _ _ o h
          · simp only [List.mem_cons, List.mem_singleton, List.not_mem_nil, or_false] at h
            first
              | (rcases h with h | h <;> subst h <;> rfl)
              | (subst h; rfl)
    · cases env.publishErr <;> simp [isEngine]

theorem publish_success (ms : Int → Int) (q : Queue) (env : Env) (id : String)
    (attempt : Int) (j : Job) (delay : Int)
    (h : (publish ms q env id attempt j delay).2 = none) :
    (publish ms q env id attempt j delay).1 =
      if delay ≠ 0 then
        [Op.channel q.name, Op.channel q.name,
         Op.exchangeDeclare q.exchange "direct" true false false false,
         Op.queueDeclare (delayedName (ms delay) q.exchange q.name) true false false false
           (delayedArgs q (ms delay)),
         Op.queueBind (delayedName (ms delay) q.exchange q.name)
           (delayedName (ms delay) q.exchange q.name) q.exchange false,
         Op.publish q.exchange (delayedName (ms delay) q.exchange q.name) false false
           (message id attempt j)]
      else
        [Op.channel q.name, Op.publish q.exchange q.name false false (message id attempt j)] := by
  revert h
  unfold publish publishCall declare
  cases env.channelErr <;> cases env.declChannelErr <;> cases env.exchangeDeclareErr <;>
    cases env.queueDeclareErr <;> cases env.queueBindErr <;> cases env.publishErr <;>
    by_cases hz : delay = 0 <;> simp [hz]

end Amqp
end Jobs

namespace Jobs
namespace Amqp

/-! ## Trace bookkeeping -/

theorem requeued_append (a b : List Op) : requeued (a ++ b) = (requeued a || requeued b) := by
  induction a with
  | nil => simp [requeued]
  | cons o t ih => cases o <;> simp [requeued, ih, Bool.or_assoc]

theorem requeued_engine_free (t : List Op) (h : ∀ o ∈ t, isEngine o = false) :
    requeued t = false := by
  induction t with
  | nil => rfl
  | cons o t ih =>
    have ho := h o (List.mem_cons_self _ _)
    have ht := ih (fun x hx => h x (List.mem_cons_of_mem _ hx))
    cases o <;> simp_all [requeued, isEngine]

theorem published_append (a b : List Op) :
    published (a ++ b) = (published a).orElse (fun _ => published b) := by
  induction a with
  | nil => simp [published]
  | cons o t ih => cases o <;> simp [published, ih]

theorem handlerCalls_append (a b : List Op) :
    handlerCalls (a ++ b) = handlerCalls a + handlerCalls b := by
  simp [handlerCalls]

theorem publishCalls_append (a b : List Op) :
    publishCalls (a ++ b) = publishCalls a + publishCalls b := by
  simp [publishCalls]

theorem errSinkCalls_append (a b : List Op) :
    errSinkCalls (a ++ b) = errSinkCalls a + errSinkCalls b := by
  simp [errSinkCalls]

theorem handlerCalls_engine_free (t : List Op) (h : ∀ o ∈ t, isEngine o = false) :
    handlerCalls t = 0 := by
  induction t with
  | nil => rfl
  | cons o t ih =>
    have ho := h o (List.mem_cons_self _ _)
    have ht := ih (fun x hx => h x (List.mem_cons_of_mem _ hx))
    cases o <;> simp_all [handlerCalls, isEngine]

theorem errSinkCalls_engine_free (t : List Op) (h : ∀ o ∈ t, isEngine o = false) :
    errSinkCalls t = 0 := by
  induction t with
  | nil => rfl
  | cons o t ih =>
    have ho := h o (List.mem_cons_self _ _)
    have ht := ih (fun x hx => h x (List.mem_cons_of_mem _ hx))
    cases o <;> simp_all [errSinkCalls, isEngine]

/-- A successful `publish` makes exactly one `Publish` call, with the packed message. -/
theorem publish_success_calls (ms : Int → Int) (q : Queue) (env : Env) (id : String)
    (attempt : Int) (j : Job) (delay : Int)
    (h : (publish ms q env id attempt j delay).2 = none) :
    publishCalls (publish ms q env id attempt j delay).1 = 1 ∧
    published (publish ms q env id attempt j delay).1 = some (message id attempt j) := by
  rw [publish_success ms q env id attempt j delay h]
  by_cases hz : delay = 0 <;> simp [hz, publishCalls, published]

end Amqp
end Jobs

namespace Jobs
namespace Amqp

/-! ## Outcome policy of `do` -/

theorem queueDo_retry_ok (ms : Int → Int) (q : Queue) (env : Env) (h : Handler) (d : Delivery)
    (e : Error) (hunpack : env.unpackErr = none)
    (hfail : h (unpack d).1 (unpack d).2.2 = some e)
    (hretry : CanRetry (unpack d).2.2.Options (unpack d).2.1 = true)
    (hpub : (publish ms q env (unpack d).1 (addInt (unpack d).2.1 1) (unpack d).2.2
      (RetryDuration (unpack d).2.2.Options)).2 = none) :
    queueDo ms q env h d =
      ([Op.handler (unpack d).1 (unpack d).2.2, Op.errSink (unpack d).1 (unpack d).2.2 e] ++
        (publish ms q env (unpack d).1 (addInt (unpack d).2.1 1) (unpack d).2.2
          (RetryDuration (unpack d).2.2.Options)).1 ++ [Op.ack false], env.ackErr) := by
  simp only [queueDo, hunpack, hfail, hretry, hpub]
  simp

theorem queueDo_retry_failed (ms : Int → Int) (q : Queue) (env : Env) (h : Handler)
    (d : Delivery) (e pe : Error) (hunpack : env.unpackErr = none)
    (hfail : h (unpack d).1 (unpack d).2.2 = some e)
    (hretry : CanRetry (unpack d).2.2.Options (unpack d).2.1 = true)
    (hpub : (publish ms q env (unpack d).1 (addInt (unpack d).2.1 1) (unpack d).2.2
      (RetryDuration (unpack d).2.2.Options)).2 = some pe) :
    queueDo ms q env h d =
      ([Op.handler (unpack d).1 (unpack d).2.2, Op.errSink (unpack d).1 (unpack d).2.2 e] ++
        (publish ms q env (unpack d).1 (addInt (unpack d).2.1 1) (unpack d).2.2
          (RetryDuration (unpack d).2.2.Options)).1 ++ [Op.report pe, Op.nack false true],
        env.nackErr) := by
  simp only [queueDo, hunpack, hfail, hretry, hpub]
  simp

theorem queueDo_reject (ms : Int → Int) (q : Queue) (env : Env) (h : Handler)
    (d : Delivery) (e : Error) (hunpack : env.unpackErr = none)
    (hfail : h (unpack d).1 (unpack d).2.2 = some e)
    (hretry : CanRetry (unpack d).2.2.Options (unpack d).2.1 = false) :
    queueDo ms q env h d =
      ([Op.handler (unpack d).1 (unpack d).2.2, Op.errSink (unpack d).1 (unpack d).2.2 e,
        Op.nack false false], env.nackErr) := by
  simp only [queueDo, hunpack, hfail, hretry]
  simp

end Amqp

/-- C4: when the handler is invoked (the call of `unpack` bound no error) and fails, retry
is allowed and the publish succeeds, `do` calls the
error sink once, before publishing; it publishes exactly one message, whose headers carry
the same id and job and the attempt plus one, through `publish` called with the delay
`RetryDuration`, which is the flat retry delay; it then acknowledges the original and
never nacks it, so that the only delivery that follows is the published one. On the
in-process backend `do` calls the error handler and pushes the same id and job with the
attempt plus one and the same delay. -/
theorem retry_resubmits_as_new_delivery (ms : Int → Int) (q : Amqp.Queue) (env : Amqp.Env)
    (h : Handler) (d : Amqp.Delivery) (e : Error) (hunpack : env.unpackErr = none)
    (hfail : h (Amqp.unpack d).1 (Amqp.unpack d).2.2 = some e)
    (hretry : CanRetry (Amqp.unpack d).2.2.Options (Amqp.unpack d).2.1 = true)
    (hpub : (Amqp.publish ms q env (Amqp.unpack d).1 (addInt (Amqp.unpack d).2.1 1)
      (Amqp.unpack d).2.2 (RetryDuration (Amqp.unpack d).2.2.Options)).2 = none) :
    (Amqp.queueDo ms q env h d).1 =
      [Amqp.Op.handler (Amqp.unpack d).1 (Amqp.unpack d).2.2,
       Amqp.Op.errSink (Amqp.unpack d).1 (Amqp.unpack d).2.2 e] ++
        (Amqp.publish ms q env (Amqp.unpack d).1 (addInt (Amqp.unpack d).2.1 1)
          (Amqp.unpack d).2.2 (RetryDuration (Amqp.unpack d).2.2.Options)).1 ++
        [Amqp.Op.ack false] ∧
    (Amqp.queueDo ms q env h d).2 = env.ackErr ∧
    Amqp.errSinkCalls (Amqp.queueDo ms q env h d).1 = 1 ∧
    Amqp.publishCalls (Amqp.queueDo ms q env h d).1 = 1 ∧
    Amqp.published (Amqp.queueDo ms q env h d).1 =
      some { ContentType := "application/octet-stream", Body := Body (Amqp.unpack d).2.2,
             DeliveryMode := Amqp.Persistent,
             Headers := Amqp.pack (Amqp.unpack d).1 (addInt (Amqp.unpack d).2.1 1)
               (Amqp.unpack d).2.2 } ∧
    (∀ m r, Amqp.Op.nack m r ∉ (Amqp.queueDo ms q env h d).1) ∧
    Amqp.nextDelivery d (Amqp.queueDo ms q env h d).1 =
      some { Headers := Amqp.pack (Amqp.unpack d).1 (addInt (Amqp.unpack d).2.1 1)
               (Amqp.unpack d).2.2,
             Body := Body (Amqp.unpack d).2.2 } ∧
    RetryDuration (Amqp.unpack d).2.2.Options = (Amqp.unpack d).2.2.Options.RetryDelay ∧
    (-(2 ^ 63) ≤ (Amqp.unpack d).2.1 → (Amqp.unpack d).2.1 < maxInt →
      addInt (Amqp.unpack d).2.1 1 = (Amqp.unpack d).2.1 + 1) ∧
    (∀ (qe : Ephemeral.Q) (h2 : Handler) (en : Ephemeral.Entry) (e2 : Error),
      h2 en.id en.job = some e2 → CanRetry en.job.Options en.attempt = true →
      Ephemeral.queueDo qe h2 en =
        Ephemeral.push
          { qe with log := qe.log ++
              [Ephemeral.Ev.handler en.id en.job, Ephemeral.Ev.errHandler en.id en.job e2,
               Ephemeral.Ev.push en.id en.job (addInt en.attempt 1)
                 (RetryDuration en.job.Options)] }
          en.id en.job (addInt en.attempt 1) (RetryDuration en.job.Options)) := by
  have hfree := Amqp.publish_engine_free ms q env (Amqp.unpack d).1
    (addInt (Amqp.unpack d).2.1 1) (Amqp.unpack d).2.2
    (RetryDuration (Amqp.unpack d).2.2.Options)
  have hcalls := Amqp.publish_success_calls ms q env (Amqp.unpack d).1
    (addInt (Amqp.unpack d).2.1 1) (Amqp.unpack d).2.2
    (RetryDuration (Amqp.unpack d).2.2.Options) hpub
  have hreq := Amqp.requeued_engine_free _ hfree
  have herr := Amqp.errSinkCalls_engine_free _ hfree
  rw [Amqp.queueDo_retry_ok ms q env h d e hunpack hfail hretry hpub]
  refine ⟨rfl, rfl, ?_, ?_, ?_, ?_, ?_, rfl, ?_, ?_⟩
  · simp only [Amqp.errSinkCalls_append, herr]
    simp [Amqp.errSinkCalls]
  · simp only [Amqp.publishCalls_append, hcalls.1]
    simp [Amqp.publishCalls]
  · simp only [List.append_assoc, Amqp.published_append, hcalls.2]
    simp [Amqp.published, Amqp.message]
  · intro m r hmem
    simp only [List.mem_append, List.mem_cons, List.mem_singleton, List.not_mem_nil,
      or_false] at hmem
    rcases hmem with (hm | hm) | hm
    · rcases hm with hm | hm <;> cases hm
    · have := hfree _ hm
      simp [Amqp.isEngine] at this
    · cases hm
  · simp only [Amqp.nextDelivery, Amqp.requeued_append, hreq, List.append_assoc,
      Amqp.published_append, hcalls.2]
    simp [Amqp.requeued, Amqp.published, Amqp.message]
  · intro h1 h2
    exact addInt_one _ h1 h2
  · intro qe h2 en e2 hf hr
    simp only [Ephemeral.queueDo, hf, hr]
    simp

/-- C5: when the handler is invoked (the call of `unpack` bound no error) and fails, retry
is allowed and the resubmission publish returns an
error, `do` on the network backend reports that error to the listener and nacks the
original with requeue; the trace holds no ack and no nack without requeue, and the
transport brings the same delivery back. -/
theorem failed_resubmission_requeues (ms : Int → Int) (q : Amqp.Queue) (env : Amqp.Env)
    (h : Handler) (d : Amqp.Delivery) (e pe : Error) (hunpack : env.unpackErr = none)
    (hfail : h (Amqp.unpack d).1 (Amqp.unpack d).2.2 = some e)
    (hretry : CanRetry (Amqp.unpack d).2.2.Options (Amqp.unpack d).2.1 = true)
    (hpub : (Amqp.publish ms q env (Amqp.unpack d).1 (addInt (Amqp.unpack d).2.1 1)
      (Amqp.unpack d).2.2 (RetryDuration (Amqp.unpack d).2.2.Options)).2 = some pe) :
    (Amqp.queueDo ms q env h d).1 =
      [Amqp.Op.handler (Amqp.unpack d).1 (Amqp.unpack d).2.2,
       Amqp.Op.errSink (Amqp.unpack d).1 (Amqp.unpack d).2.2 e] ++
        (Amqp.publish ms q env (Amqp.unpack d).1 (addInt (Amqp.unpack d).2.1 1)
          (Amqp.unpack d).2.2 (RetryDuration (Amqp.unpack d).2.2.Options)).1 ++
        [Amqp.Op.report pe, Amqp.Op.nack false true] ∧
    (Amqp.queueDo ms q env h d).2 = env.nackErr ∧
    Amqp.Op.report pe ∈ (Amqp.queueDo ms q env h d).1 ∧
    Amqp.Op.nack false true ∈ (Amqp.queueDo ms q env h d).1 ∧
    (∀ m, Amqp.Op.ack m ∉ (Amqp.queueDo ms q env h d).1) ∧
    (∀ m, Amqp.Op.nack m false ∉ (Amqp.queueDo ms q env h d).1) ∧
    Amqp.nextDelivery d (Amqp.queueDo ms q env h d).1 = some d := by
  have hfree := Amqp.publish_engine_free ms q env (Amqp.unpack d).1
    (addInt (Amqp.unpack d).2.1 1) (Amqp.unpack d).2.2
    (RetryDuration (Amqp.unpack d).2.2.Options)
  rw [Amqp.queueDo_retry_failed ms q env h d e pe hunpack hfail hretry hpub]
  refine ⟨rfl, rfl, ?_, ?_, ?_, ?_, ?_⟩
  · simp
  · simp
  · intro m hmem
    simp only [List.mem_append, List.mem_cons, List.mem_singleton, List.not_mem_nil,
      or_false] at hmem
    rcases hmem with (hm | hm) | hm
    · rcases hm with hm | hm <;> cases hm
    · have := hfree _ hm
      simp [Amqp.isEngine] at this
    · rcases hm with hm | hm <;> cases hm
  · intro m hmem
    simp only [List.mem_append, List.mem_cons, List.mem_singleton, List.not_mem_nil,
      or_false] at hmem
    rcases hmem with (hm | hm) | hm
    · rcases hm with hm | hm <;> cases hm
    · have := hfree _ hm
      simp [Amqp.isEngine] at this
    · rcases hm with hm | hm <;> cases hm
  · simp [Amqp.nextDelivery, Amqp.requeued_append, Amqp.requeued]

/-- The calls of `publish` for the value `ms delay` of `delayMs`, whatever the conversion
`ms` is: with the channel and the declarations succeeding, `publish` with a non-zero delay
declares the queue `delayed-<ttl>.<exchange>.<queue>` with message TTL `ttl`, the pipeline's
exchange and queue name as dead-letter target and expiry `2 * ttl`, binds it and publishes
with that name as routing key; with a zero delay it declares nothing and publishes with the
pipeline's queue name as routing key. In both cases the message is persistent, its body is
the job body and its headers are `pack id attempt j`. -/
theorem publish_calls_for_ttl (ms : Int → Int) (q : Amqp.Queue) (env : Amqp.Env)
    (id : String) (attempt : Int) (j : Job) (delay : Int)
    (hc : env.channelErr = none) (hd : env.declChannelErr = none)
    (he : env.exchangeDeclareErr = none) (hq : env.queueDeclareErr = none)
    (hb : env.queueBindErr = none)
    (hr : -(2 ^ 62) ≤ ms delay ∧ ms delay < 2 ^ 62) :
    (delay ≠ 0 →
      (Amqp.publish ms q env id attempt j delay).1 =
        [Amqp.Op.channel q.name, Amqp.Op.channel q.name,
         Amqp.Op.exchangeDeclare q.exchange "direct" true false false false,
         Amqp.Op.queueDeclare
           ("delayed-" ++ toString (ms delay) ++ "." ++ q.exchange ++ "." ++ q.name)
           true false false false
           [("x-dead-letter-exchange", Amqp.HVal.str q.exchange),
            ("x-dead-letter-routing-key", Amqp.HVal.str q.name),
            ("x-message-ttl", Amqp.HVal.int64 (ms delay)),
            ("x-expires", Amqp.HVal.int64 (2 * ms delay))],
         Amqp.Op.queueBind
           ("delayed-" ++ toString (ms delay) ++ "." ++ q.exchange ++ "." ++ q.name)
           ("delayed-" ++ toString (ms delay) ++ "." ++ q.exchange ++ "." ++ q.name)
           q.exchange false,
         Amqp.Op.publish q.exchange
           ("delayed-" ++ toString (ms delay) ++ "." ++ q.exchange ++ "." ++ q.name)
           false false
           { ContentType := "application/octet-stream", Body := Body j, DeliveryMode := 2,
             Headers := Amqp.pack id attempt j }] ++
          (env.publishErr.map Amqp.Op.release).toList) ∧
    (delay = 0 →
      (Amqp.publish ms q env id attempt j delay).1 =
        [Amqp.Op.channel q.name,
         Amqp.Op.publish q.exchange q.name false false
           { ContentType := "application/octet-stream", Body := Body j, DeliveryMode := 2,
             Headers := Amqp.pack id attempt j }] ++
          (env.publishErr.map Amqp.Op.release).toList) ∧
    (Amqp.publish ms q env id attempt j delay).2 = env.publishErr := by
  have h2 := mulInt64_two (ms delay) hr.1 hr.2
  refine ⟨?_, ?_, ?_⟩
  · intro hz
    simp only [Amqp.publish, Amqp.publishCall, Amqp.declare, hc, hd, he, hq, hb]
    cases env.publishErr <;>
      simp [hz, Amqp.delayedName, Amqp.delayedArgs, Amqp.message, Amqp.Persistent, h2]
  · intro hz
    simp only [Amqp.publish, Amqp.publishCall, hc]
    cases env.publishErr <;> simp [hz, Amqp.message, Amqp.Persistent]
  · simp only [Amqp.publish, Amqp.publishCall, Amqp.declare, hc, hd, he, hq, hb]
    by_cases hz : delay = 0 <;> cases env.publishErr <;> simp [hz]

end Jobs

namespace Jobs
namespace Amqp

/-! ## Decimal rendering is injective -/

/-- A decimal digit character carries its digit: its code point minus that of `0`. -/
theorem digitChar_val (d : Nat) (h : d < 10) : (Nat.digitChar d).toNat - 48 = d := by
  interval_cases d <;> rfl

theorem digitChar_ne_minus (d : Nat) (h : d < 10) : Nat.digitChar d ≠ '-' := by
  interval_cases d <;> decide

theorem toDigitsCore_append (fuel n : Nat) (ds : List Char) :
    Nat.toDigitsCore 10 fuel n ds = Nat.toDigitsCore 10 fuel n [] ++ ds := by
  induction fuel generalizing n ds with
  | zero => simp [Nat.toDigitsCore]
  | succ f ih =>
    simp only [Nat.toDigitsCore]
    split
    · simp
    · rw [ih (n / 10) (Nat.digitChar (n % 10) :: ds), ih (n / 10) [Nat.digitChar (n % 10)]]
      simp

theorem foldl_toDigitsCore (fuel n : Nat) (hf : n < fuel) :
    (Nat.toDigitsCore 10 fuel n []).foldl (fun a c => a * 10 + (c.toNat - 48)) 0 = n := by
  induction fuel generalizing n with
  | zero => omega
  | succ f ih =>
    simp only [Nat.toDigitsCore]
    split
    · rename_i h0
      simp only [List.foldl, Nat.zero_mul, Nat.zero_add]
      rw [digitChar_val _ (Nat.mod_lt _ (by decide))]
      omega
    · rename_i h0
      rw [toDigitsCore_append, List.foldl_append, ih (n / 10) (by omega)]
      simp only [List.foldl]
      rw [digitChar_val _ (Nat.mod_lt _ (by decide))]
      omega

theorem toDigitsCore_no_minus (fuel n : Nat) :
    ∀ c ∈ Nat.toDigitsCore 10 fuel n [], c ≠ '-' := by
  induction fuel generalizing n with
  | zero => simp [Nat.toDigitsCore]
  | succ f ih =>
    simp only [Nat.toDigitsCore]
    split
    · intro c hc
      simp only [List.mem_singleton] at hc
      subst hc
      exact digitChar_ne_minus _ (Nat.mod_lt _ (by decide))
    · rw [toDigitsCore_append]
      intro c hc
      simp only [List.mem_append, List.mem_singleton] at hc
      rcases hc with hc | hc
      · exact ih _ c hc
      · subst hc
        exact digitChar_ne_minus _ (Nat.mod_lt _ (by decide))

theorem natRepr_injective (a b : Nat) (h : Nat.repr a = Nat.repr b) : a = b := by
  have hd : Nat.toDigits 10 a = Nat.toDigits 10 b := by
    have := congrArg String.data h
    simpa [Nat.repr, List.asString] using this
  have ha := foldl_toDigitsCore (a + 1) a (by omega)
  have hb := foldl_toDigitsCore (b + 1) b (by omega)
  unfold Nat.toDigits at hd
  rw [hd] at ha
  omega

theorem natRepr_no_minus (a : Nat) : '-' ∉ (Nat.repr a).data := by
  intro h
  have h2 : '-' ∈ Nat.toDigits 10 a := by
    simpa [Nat.repr, List.asString] using h
  exact toDigitsCore_no_minus _ _ _ h2 rfl

theorem intToString_injective (a b : Int) (h : toString a = toString b) : a = b := by
  cases a with
  | ofNat m =>
    cases b with
    | ofNat n =>
      have : Nat.repr m = Nat.repr n := h
      rw [natRepr_injective m n this]
    | negSucc n =>
      exfalso
      have h1 : toString (Int.ofNat m) = Nat.repr m := rfl
      have h2 : toString (Int.negSucc n) = "-" ++ Nat.repr (n + 1) := rfl
      rw [h1, h2] at h
      have hm := natRepr_no_minus m
      rw [h] at hm
      simp at hm
  | negSucc m =>
    cases b with
    | ofNat n =>
      exfalso
      have h1 : toString (Int.ofNat n) = Nat.repr n := rfl
      have h2 : toString (Int.negSucc m) = "-" ++ Nat.repr (m + 1) := rfl
      rw [h1, h2] at h
      have hn := natRepr_no_minus n
      rw [← h] at hn
      simp at hn
    | negSucc n =>
      have h1 : toString (Int.negSucc m) = "-" ++ Nat.repr (m + 1) := rfl
      have h2 : toString (Int.negSucc n) = "-" ++ Nat.repr (n + 1) := rfl
      rw [h1, h2] at h
      have h3 : Nat.repr (m + 1) = Nat.repr (n + 1) := by
        have := congrArg String.data h
        simp only [String.data_append, List.append_cancel_left_eq] at this
        exact String.ext this
      have := natRepr_injective _ _ h3
      have hmn : m = n := by omega
      rw [hmn]

theorem delayedName_injective (a b : Int) (exchange name : String)
    (h : delayedName a exchange name = delayedName b exchange name) : a = b := by
  unfold delayedName at h
  have := congrArg String.data h
  simp only [String.data_append, List.append_assoc, List.append_cancel_left_eq,
    List.append_cancel_right_eq] at this
  exact intToString_injective a b (String.ext this)

end Amqp

/-- C7: for one exchange and one target queue, two delays whose millisecond TTLs differ get
different helper-queue names from `publish`; equal helper names imply equal TTLs. -/
theorem helper_names_collision_free (ms : Int → Int) (q : Amqp.Queue) (d1 d2 : Int)
    (h : ms d1 ≠ ms d2) :
    Amqp.delayedName (ms d1) q.exchange q.name ≠ Amqp.delayedName (ms d2) q.exchange q.name ∧
    (∀ (env : Amqp.Env) (id : String) (attempt : Int) (j : Job),
      d1 ≠ 0 → d2 ≠ 0 →
      (Amqp.publish ms q env id attempt j d1).2 = none →
      (Amqp.publish ms q env id attempt j d2).2 = none →
      ∃ k1 k2 m1 m2,
        Amqp.Op.publish q.exchange k1 false false m1 ∈ (Amqp.publish ms q env id attempt j d1).1 ∧
        Amqp.Op.publish q.exchange k2 false false m2 ∈ (Amqp.publish ms q env id attempt j d2).1 ∧
        k1 ≠ k2) := by
  have hne : Amqp.delayedName (ms d1) q.exchange q.name ≠
      Amqp.delayedName (ms d2) q.exchange q.name :=
    fun heq => h (Amqp.delayedName_injective _ _ _ _ heq)
  refine ⟨hne, ?_⟩
  intro env id attempt j h1 h2 p1 p2
  refine ⟨_, _, Amqp.message id attempt j, Amqp.message id attempt j, ?_, ?_, hne⟩
  · rw [Amqp.publish_success ms q env id attempt j d1 p1]
    simp [h1]
  · rw [Amqp.publish_success ms q env id attempt j d2 p2]
    simp [h2]

end Jobs

namespace Jobs
namespace Amqp

/-! ## The life of an always-failing job on the network backend -/

theorem publish_ok_result (ms : Int → Int) (q : Queue) (id : String) (attempt : Int) (j : Job)
    (delay : Int) : (publish ms q Env.ok id attempt j delay).2 = none := by
  unfold publish publishCall declare Env.ok
  by_cases hz : delay = 0 <;> simp [hz]

theorem unpack_pack_body (id : String) (a : Int) (j : Job) :
    unpack { Headers := pack id a j, Body := Body j } = (id, a, j) := by
  rw [unpack_pack_eq]
  rfl

theorem canRetry_lt (o : Options) (a : Int) (h : a < o.Attempts) : CanRetry o a = true := by
  simp [CanRetry, h]

theorem canRetry_exhausted (o : Options) (h0 : 0 < o.Attempts) :
    CanRetry o o.Attempts = false := by
  have hne : o.Attempts ≠ 0 := by omega
  simp [CanRetry, hne]

/-- One failed delivery with attempts left: the trace and the delivery that follows. -/
theorem serveJob_retry (ms : Int → Int) (q : Queue) (env : Env) (h : Handler) (id : String)
    (a : Int) (j : Job) (e : Error) (hunpack : env.unpackErr = none)
    (hack : env.ackErr = none)
    (hpub : (publish ms q env id (a + 1) j (RetryDuration j.Options)).2 = none)
    (hfail : h id j = some e) (hlt : a < j.Options.Attempts)
    (h1 : -(2 ^ 63) ≤ a) (h2 : a < maxInt) :
    serveJob ms q env h { Headers := pack id a j, Body := Body j } =
      [Op.handler id j, Op.errSink id j e] ++
        (publish ms q env id (a + 1) j (RetryDuration j.Options)).1 ++ [Op.ack false] ∧
    nextDelivery { Headers := pack id a j, Body := Body j }
      (serveJob ms q env h { Headers := pack id a j, Body := Body j }) =
        some { Headers := pack id (a + 1) j, Body := Body j } := by
  have hu := unpack_pack_body id a j
  have hdo := queueDo_retry_ok ms q env h { Headers := pack id a j, Body := Body j } e
    hunpack (by rw [hu]; exact hfail) (by rw [hu]; exact canRetry_lt _ _ hlt)
    (by rw [hu]; simp only []; rw [addInt_one a h1 h2]; exact hpub)
  rw [hu] at hdo
  simp only [] at hdo
  rw [addInt_one a h1 h2] at hdo
  have hs : serveJob ms q env h { Headers := pack id a j, Body := Body j } =
      [Op.handler id j, Op.errSink id j e] ++
        (publish ms q env id (a + 1) j (RetryDuration j.Options)).1 ++ [Op.ack false] := by
    unfold serveJob
    rw [hdo]
    simp only [hack]
  have hfree := publish_engine_free ms q env id (a + 1) j (RetryDuration j.Options)
  have hcalls := publish_success_calls ms q env id (a + 1) j (RetryDuration j.Options) hpub
  refine ⟨hs, ?_⟩
  rw [hs]
  simp only [nextDelivery, requeued_append, requeued_engine_free _ hfree, List.append_assoc,
    published_append, hcalls.2]
  simp [requeued, published, message]

/-- One failed delivery with no attempt left: the delivery is rejected and nothing follows. -/
theorem serveJob_exhausted (ms : Int → Int) (q : Queue) (env : Env) (h : Handler)
    (id : String) (j : Job) (e : Error) (hunpack : env.unpackErr = none)
    (hnack : env.nackErr = none) (hfail : h id j = some e) (h0 : 0 < j.Options.Attempts) :
    serveJob ms q env h { Headers := pack id j.Options.Attempts j, Body := Body j } =
      [Op.handler id j, Op.errSink id j e, Op.nack false false] ∧
    nextDelivery { Headers := pack id j.Options.Attempts j, Body := Body j }
      (serveJob ms q env h { Headers := pack id j.Options.Attempts j, Body := Body j }) =
        none := by
  have hu := unpack_pack_body id j.Options.Attempts j
  have hdo := queueDo_reject ms q env h
    { Headers := pack id j.Options.Attempts j, Body := Body j } e
    hunpack (by rw [hu]; exact hfail) (by rw [hu]; exact canRetry_exhausted _ h0)
  rw [hu] at hdo
  have hs : serveJob ms q env h { Headers := pack id j.Options.Attempts j, Body := Body j } =
      [Op.handler id j, Op.errSink id j e, Op.nack false false] := by
    unfold serveJob
    rw [hdo]
    simp only [hnack]
  refine ⟨hs, ?_⟩
  rw [hs]
  simp [nextDelivery, requeued, published]

end Amqp
end Jobs

namespace Jobs
namespace Amqp

theorem retry_trace_counts (ms : Int → Int) (q : Queue) (env : Env) (id : String) (a : Int)
    (j : Job) (e : Error)
    (hpub : (publish ms q env id a j (RetryDuration j.Options)).2 = none) :
    handlerCalls ([Op.handler id j, Op.errSink id j e] ++
      (publish ms q env id a j (RetryDuration j.Options)).1 ++ [Op.ack false]) = 1 ∧
    publishCalls ([Op.handler id j, Op.errSink id j e] ++
      (publish ms q env id a j (RetryDuration j.Options)).1 ++ [Op.ack false]) = 1 ∧
    (∀ m r, Op.nack m r ∉ [Op.handler id j, Op.errSink id j e] ++
      (publish ms q env id a j (RetryDuration j.Options)).1 ++ [Op.ack false]) := by
  have hfree := publish_engine_free ms q env id a j (RetryDuration j.Options)
  have hcalls := publish_success_calls ms q env id a j (RetryDuration j.Options) hpub
  refine ⟨?_, ?_, ?_⟩
  · simp only [handlerCalls_append, handlerCalls_engine_free _ hfree]
    simp [handlerCalls]
  · simp only [publishCalls_append, hcalls.1]
    simp [publishCalls]
  · intro m r hmem
    simp only [List.mem_append, List.mem_cons, List.mem_singleton, List.not_mem_nil,
      or_false] at hmem
    rcases hmem with (hm | hm) | hm
    · rcases hm with hm | hm <;> cases hm
    · have := hfree _ hm
      simp [isEngine] at this
    · cases hm

/-- With `k` attempts left before exhaustion, an always-failing job whose resubmissions and
acknowledgements succeed is handled `k + 1` times, published `k` times and then rejected,
whatever fuel beyond `k + 1` is given. -/
theorem network_life_exhausts (ms : Int → Int) (q : Queue) (env : Env) (h : Nat → Handler)
    (id : String) (j : Job) (hunpack : env.unpackErr = none) (hack : env.ackErr = none)
    (hnack : env.nackErr = none)
    (hpub : ∀ a, (publish ms q env id a j (RetryDuration j.Options)).2 = none)
    (hfail : ∀ n i jb, ∃ e, h n i jb = some e)
    (h0 : 0 < j.Options.Attempts) (hmax : j.Options.Attempts ≤ maxInt) :
    ∀ (k : Nat) (a : Int) (n fuel : Nat), a + k = j.Options.Attempts → 0 ≤ a → k + 1 ≤ fuel →
      (life ms q env h fuel n { Headers := pack id a j, Body := Body j }).2 = true ∧
      handlerCalls (life ms q env h fuel n { Headers := pack id a j, Body := Body j }).1
        = k + 1 ∧
      publishCalls (life ms q env h fuel n { Headers := pack id a j, Body := Body j }).1
        = k ∧
      (∃ pre, (life ms q env h fuel n { Headers := pack id a j, Body := Body j }).1
          = pre ++ [Op.nack false false] ∧ ∀ m r, Op.nack m r ∉ pre) ∧
      life ms q env h fuel n { Headers := pack id a j, Body := Body j } =
        life ms q env h (k + 1) n { Headers := pack id a j, Body := Body j } := by
  intro k
  induction k with
  | zero =>
    intro a n fuel ha _ hfuel
    have haN : a = j.Options.Attempts := by simpa using ha
    subst haN
    obtain ⟨e, he⟩ := hfail n id j
    obtain ⟨hs, hn⟩ := serveJob_exhausted ms q env (h n) id j e hunpack hnack he h0
    have hl : ∀ f, life ms q env h (f + 1) n
        { Headers := pack id j.Options.Attempts j, Body := Body j } =
        ([Op.handler id j, Op.errSink id j e, Op.nack false false], true) := by
      intro f
      simp only [life, hn]
      rw [hs]
    obtain ⟨f, rfl⟩ : ∃ f, fuel = f + 1 := ⟨fuel - 1, by omega⟩
    rw [hl f]
    refine ⟨rfl, ?_, ?_, ⟨[Op.handler id j, Op.errSink id j e], rfl, ?_⟩, ?_⟩
    · simp [handlerCalls]
    · simp [publishCalls]
    · intro m r hm
      simp at hm
    · exact (hl 0).symm
  | succ k ih =>
    intro a n fuel ha ha0 hfuel
    have hlt : a < j.Options.Attempts := by push_cast at ha; omega
    have h2 : a < maxInt := by omega
    have h1 : -(2 ^ 63) ≤ a := by omega
    obtain ⟨e, he⟩ := hfail n id j
    obtain ⟨hs, hn⟩ := serveJob_retry ms q env (h n) id a j e hunpack hack (hpub (a + 1)) he
      hlt h1 h2
    obtain ⟨hc1, hc2, hc3⟩ := retry_trace_counts ms q env id (a + 1) j e (hpub (a + 1))
    have hl : ∀ f, life ms q env h (f + 1) n { Headers := pack id a j, Body := Body j } =
        ([Op.handler id j, Op.errSink id j e] ++
          (publish ms q env id (a + 1) j (RetryDuration j.Options)).1 ++ [Op.ack false] ++
          (life ms q env h f (n + 1) { Headers := pack id (a + 1) j, Body := Body j }).1,
         (life ms q env h f (n + 1) { Headers := pack id (a + 1) j, Body := Body j }).2) := by
      intro f
      simp only [life, hn]
      rw [hs]
    obtain ⟨f, rfl⟩ : ∃ f, fuel = f + 1 := ⟨fuel - 1, by omega⟩
    have hnext := ih (a + 1) (n + 1) f (by push_cast at ha ⊢; omega) (by omega) (by omega)
    obtain ⟨r1, r2, r3, ⟨pre, r4, r5⟩, r6⟩ := hnext
    rw [hl f]
    refine ⟨r1, ?_, ?_, ⟨([Op.handler id j, Op.errSink id j e] ++
      (publish ms q env id (a + 1) j (RetryDuration j.Options)).1 ++ [Op.ack false]) ++ pre,
      ?_, ?_⟩, ?_⟩
    · rw [handlerCalls_append, hc1, r2]
      omega
    · rw [publishCalls_append, hc2, r3]
      omega
    · show _ ++ _ = _
      rw [r4]
      simp only [List.append_assoc]
    · intro m r hm
      rcases List.mem_append.mp hm with hm | hm
      · exact hc3 m r hm
      · exact r5 m r hm
    · rw [hl (k + 1), r6]

end Amqp
end Jobs

namespace Jobs
namespace Ephemeral

/-! ## The life of an always-failing job on the in-process backend -/

theorem handlerCalls_log (q : Q) (l : List Ev) :
    handlerCalls { q with log := q.log ++ l } =
      handlerCalls q + (l.filter (fun o => match o with
        | Ev.handler _ _ => true | _ => false)).length := by
  simp [handlerCalls]

/-- The only entry of the queue is `e`, sent or sleeping, and no entry is held. -/
theorem next_solo (q : Q) (e : Entry) (hheld : q.held = [])
    (hsolo : (q.jobs = [e] ∧ q.sleeping = []) ∨ (q.jobs = [] ∧ q.sleeping = [e])) :
    ∃ q1, next q = some (e, q1) ∧ q1.jobs = [] ∧ q1.sleeping = [] ∧ q1.held = [e] ∧
      q1.log = q.log := by
  rcases hsolo with ⟨hj, hs⟩ | ⟨hj, hs⟩
  · refine ⟨{ q with st := { q.st with Active := addInt q.st.Active 1 },
                     jobs := q.jobs.erase e, held := e :: q.held }, ?_, ?_, ?_, ?_, ?_⟩
    · simp only [next, hj, consume, List.mem_singleton, if_true, Option.map_some']
    · simp [hj]
    · simp [hs]
    · simp [hheld]
    · rfl
  · refine ⟨{ q with st := { Queue := addInt q.st.Queue 1, Active := addInt q.st.Active 1,
                             Delayed := addInt q.st.Delayed (-1) },
                     sleeping := q.sleeping.erase e, jobs := (q.jobs ++ [e]).erase e,
                     held := e :: q.held }, ?_, ?_, ?_, ?_, ?_⟩
    · simp only [next, hj, hs, wake, consume, List.mem_singleton, if_true, Option.some_bind,
        List.nil_append, Option.map_some']
    · simp [hj]
    · simp [hs]
    · simp [hheld]
    · rfl

theorem push_solo (q : Q) (id : String) (j : Job) (a d : Int)
    (hj : q.jobs = []) (hs : q.sleeping = []) :
    ((push q id j a d).jobs = [{ id := id, job := j, attempt := a }] ∧
        (push q id j a d).sleeping = []) ∨
      ((push q id j a d).jobs = [] ∧
        (push q id j a d).sleeping = [{ id := id, job := j, attempt := a }]) := by
  unfold push
  split
  · left
    simp [hj, hs]
  · right
    simp [hj, hs]

theorem push_keeps (q : Q) (id : String) (j : Job) (a d : Int) :
    (push q id j a d).held = q.held ∧ (push q id j a d).log = q.log := by
  unfold push
  split <;> simp

end Ephemeral
end Jobs

namespace Jobs
namespace Ephemeral

theorem life_empty (h : Nat → Handler) (f n : Nat) (q : Q) (hj : q.jobs = [])
    (hs : q.sleeping = []) : life h (f + 1) n q = (q, true) := by
  simp [life, next, hj, hs]

theorem finish_retry (q1 : Q) (h : Handler) (e : Entry) (err : Error)
    (hheld : q1.held = [e]) (hj : q1.jobs = []) (hs : q1.sleeping = [])
    (hf : h e.id e.job = some err) (hr : CanRetry e.job.Options e.attempt = true) :
    ∃ q2, finish q1 h e = some q2 ∧ q2.held = [] ∧
      ((q2.jobs = [{ id := e.id, job := e.job, attempt := addInt e.attempt 1 }] ∧
          q2.sleeping = []) ∨
        (q2.jobs = [] ∧
          q2.sleeping = [{ id := e.id, job := e.job, attempt := addInt e.attempt 1 }])) ∧
      handlerCalls q2 = handlerCalls q1 + 1 ∧ pushCalls q2 = pushCalls q1 + 1 := by
  have hmem : e ∈ q1.held := by simp [hheld]
  simp only [finish, hmem, if_true, queueDo, hf, hr, Bool.not_true, Bool.false_eq_true,
    if_false]
  refine ⟨_, rfl, ?_, ?_, ?_, ?_⟩
  · simp [(push_keeps _ _ _ _ _).1, hheld]
  · have := push_solo
      { st := q1.st, sleeping := q1.sleeping, jobs := q1.jobs, held := q1.held.erase e,
        log := q1.log ++ [Ev.handler e.id e.job, Ev.errHandler e.id e.job err] ++
          [Ev.push e.id e.job (addInt e.attempt 1) (RetryDuration e.job.Options)] }
      e.id e.job (addInt e.attempt 1) (RetryDuration e.job.Options) hj hs
    simpa using this
  · simp [handlerCalls, (push_keeps _ _ _ _ _).2]
  · simp [pushCalls, (push_keeps _ _ _ _ _).2]

theorem finish_reject (q1 : Q) (h : Handler) (e : Entry) (err : Error)
    (hheld : q1.held = [e]) (hj : q1.jobs = []) (hs : q1.sleeping = [])
    (hf : h e.id e.job = some err) (hr : CanRetry e.job.Options e.attempt = false) :
    ∃ q2, finish q1 h e = some q2 ∧ q2.held = [] ∧ q2.jobs = [] ∧ q2.sleeping = [] ∧
      handlerCalls q2 = handlerCalls q1 + 1 ∧ pushCalls q2 = pushCalls q1 := by
  have hmem : e ∈ q1.held := by simp [hheld]
  simp only [finish, hmem, if_true, queueDo, hf, hr, Bool.not_false, if_true]
  refine ⟨_, rfl, ?_, ?_, ?_, ?_, ?_⟩
  · simp [hheld]
  · simp [hj]
  · simp [hs]
  · simp [handlerCalls]
  · simp [pushCalls]

end Ephemeral
end Jobs

namespace Jobs
namespace Ephemeral

/-- With `k` attempts left before exhaustion, an always-failing entry is handled `k + 1`
times, pushed again `k` times and then dropped, whatever fuel beyond `k + 2` is given. -/
theorem inprocess_life_exhausts (h : Nat → Handler) (id : String) (j : Job)
    (hfail : ∀ n i jb, ∃ e, h n i jb = some e)
    (h0 : 0 < j.Options.Attempts) (hmax : j.Options.Attempts ≤ maxInt) :
    ∀ (k : Nat) (a : Int) (n fuel : Nat) (q : Q),
      a + k = j.Options.Attempts → 0 ≤ a → k + 2 ≤ fuel → q.held = [] →
      ((q.jobs = [{ id := id, job := j, attempt := a }] ∧ q.sleeping = []) ∨
        (q.jobs = [] ∧ q.sleeping = [{ id := id, job := j, attempt := a }])) →
      (life h fuel n q).2 = true ∧
      handlerCalls (life h fuel n q).1 = handlerCalls q + (k + 1) ∧
      pushCalls (life h fuel n q).1 = pushCalls q + k ∧
      (life h fuel n q).1.jobs = [] ∧ (life h fuel n q).1.sleeping = [] ∧
      (life h fuel n q).1.held = [] ∧
      life h fuel n q = life h (k + 2) n q := by
  intro k
  induction k with
  | zero =>
    intro a n fuel q ha _ hfuel hheld hsolo
    have haN : a = j.Options.Attempts := by simpa using ha
    subst haN
    obtain ⟨e, he⟩ := hfail n id j
    obtain ⟨q1, hn, hj1, hs1, hh1, hl1⟩ := next_solo q _ hheld hsolo
    obtain ⟨q2, hfin, hh2, hj2, hs2, hc2, hp2⟩ :=
      finish_reject q1 (h n) { id := id, job := j, attempt := j.Options.Attempts } e hh1 hj1 hs1
        he (Amqp.canRetry_exhausted _ h0)
    have hl : ∀ f, life h (f + 2) n q = (q2, true) := by
      intro f
      simp only [life, hn, hfin]
      exact life_empty h f (n + 1) q2 hj2 hs2
    obtain ⟨f, rfl⟩ : ∃ f, fuel = f + 2 := ⟨fuel - 2, by omega⟩
    rw [hl f]
    have hcq : handlerCalls q1 = handlerCalls q := by simp [handlerCalls, hl1]
    have hpq : pushCalls q1 = pushCalls q := by simp [pushCalls, hl1]
    refine ⟨rfl, ?_, ?_, hj2, hs2, hh2, (hl 0).symm⟩
    · show handlerCalls q2 = _
      omega
    · show pushCalls q2 = _
      omega
  | succ k ih =>
    intro a n fuel q ha ha0 hfuel hheld hsolo
    have hlt : a < j.Options.Attempts := by push_cast at ha; omega
    have h2 : a < maxInt := by omega
    have h1 : -(2 ^ 63) ≤ a := by omega
    obtain ⟨e, he⟩ := hfail n id j
    obtain ⟨q1, hn, hj1, hs1, hh1, hl1⟩ := next_solo q _ hheld hsolo
    obtain ⟨q2, hfin, hh2, hsolo2, hc2, hp2⟩ :=
      finish_retry q1 (h n) { id := id, job := j, attempt := a } e hh1 hj1 hs1
        he (Amqp.canRetry_lt _ _ hlt)
    simp only [addInt_one a h1 h2] at hsolo2
    have hl : ∀ f, life h (f + 1) n q = life h f (n + 1) q2 := by
      intro f
      simp only [life, hn, hfin]
    obtain ⟨f, rfl⟩ : ∃ f, fuel = f + 1 := ⟨fuel - 1, by omega⟩
    have hcq : handlerCalls q1 = handlerCalls q := by simp [handlerCalls, hl1]
    have hpq : pushCalls q1 = pushCalls q := by simp [pushCalls, hl1]
    obtain ⟨r1, r2, r3, r4, r5, r6, r7⟩ :=
      ih (a + 1) (n + 1) f q2 (by push_cast at ha ⊢; omega) (by omega) (by omega) hh2 hsolo2
    rw [hl f]
    refine ⟨r1, ?_, ?_, r4, r5, r6, ?_⟩
    · rw [r2]; omega
    · rw [r3]; omega
    · rw [hl (k + 2), r7]

end Ephemeral
end Jobs

namespace Jobs

/-! ## Retry count -/

/-- C3 (amended): with `can_retry(a) = (attempts == 0 OR a < attempts)`, a job with
attempts `N > 0` whose first delivery carries attempt 0 and whose handler always fails has
its handler invoked exactly `N + 1` times (attempts `0` to `N`), is resubmitted `N` times,
and is then permanently rejected and never resubmitted. On the network backend this holds
when the call of `unpack` binds no error and every resubmission publish, ack and nack
succeeds: the trace then ends with the only nack, one without requeue. On the in-process
backend no entry is left. Any fuel from `N + 2` on gives this same result. -/
theorem always_failing_job_runs_attempts_plus_one (ms : Int → Int) (q : Amqp.Queue)
    (env : Amqp.Env) (h : Nat → Handler) (id : String) (j : Job) (N fuel : Nat) (delay : Int)
    (hN : 0 < N) (hj : j.Options.Attempts = N) (hmax : (N : Int) ≤ maxInt)
    (hunpack : env.unpackErr = none) (hack : env.ackErr = none) (hnack : env.nackErr = none)
    (hpub : ∀ a, (Amqp.publish ms q env id a j (RetryDuration j.Options)).2 = none)
    (hfail : ∀ n i jb, ∃ e, h n i jb = some e) (hfuel : N + 2 ≤ fuel) :
    (Amqp.life ms q env h fuel 0 (firstDelivery id j)).2 = true ∧
    Amqp.handlerCalls (Amqp.life ms q env h fuel 0 (firstDelivery id j)).1 = N + 1 ∧
    Amqp.publishCalls (Amqp.life ms q env h fuel 0 (firstDelivery id j)).1 = N ∧
    (∃ pre, (Amqp.life ms q env h fuel 0 (firstDelivery id j)).1
        = pre ++ [Amqp.Op.nack false false] ∧ ∀ m r, Amqp.Op.nack m r ∉ pre) ∧
    Amqp.life ms q env h fuel 0 (firstDelivery id j) =
      Amqp.life ms q env h (N + 1) 0 (firstDelivery id j) ∧
    (Ephemeral.life h fuel 0 (Ephemeral.push Ephemeral.newQueue id j 0 delay)).2 = true ∧
    Ephemeral.handlerCalls
      (Ephemeral.life h fuel 0 (Ephemeral.push Ephemeral.newQueue id j 0 delay)).1 = N + 1 ∧
    Ephemeral.pushCalls
      (Ephemeral.life h fuel 0 (Ephemeral.push Ephemeral.newQueue id j 0 delay)).1 = N ∧
    (Ephemeral.life h fuel 0 (Ephemeral.push Ephemeral.newQueue id j 0 delay)).1.jobs = [] ∧
    (Ephemeral.life h fuel 0 (Ephemeral.push Ephemeral.newQueue id j 0 delay)).1.sleeping
      = [] ∧
    (Ephemeral.life h fuel 0 (Ephemeral.push Ephemeral.newQueue id j 0 delay)).1.held = [] ∧
    Ephemeral.life h fuel 0 (Ephemeral.push Ephemeral.newQueue id j 0 delay) =
      Ephemeral.life h (N + 2) 0 (Ephemeral.push Ephemeral.newQueue id j 0 delay) := by
  have h0 : 0 < j.Options.Attempts := by rw [hj]; exact_mod_cast hN
  have hm : j.Options.Attempts ≤ maxInt := by rw [hj]; exact hmax
  obtain ⟨a1, a2, a3, a4, a5⟩ := Amqp.network_life_exhausts ms q env h id j hunpack hack hnack
    hpub hfail h0 hm N 0 0 fuel (by rw [hj]; simp) (le_refl _) (by omega)
  have hsolo := Ephemeral.push_solo Ephemeral.newQueue id j 0 delay rfl rfl
  have hkeep := Ephemeral.push_keeps Ephemeral.newQueue id j 0 delay
  obtain ⟨e1, e2, e3, e4, e5, e6, e7⟩ := Ephemeral.inprocess_life_exhausts h id j hfail h0 hm N 0 0 fuel
    (Ephemeral.push Ephemeral.newQueue id j 0 delay) (by rw [hj]; simp) (le_refl _) hfuel
    hkeep.1 hsolo
  have hc0 : Ephemeral.handlerCalls (Ephemeral.push Ephemeral.newQueue id j 0 delay) = 0 := by
    unfold Ephemeral.handlerCalls
    rw [hkeep.2]
    rfl
  have hp0 : Ephemeral.pushCalls (Ephemeral.push Ephemeral.newQueue id j 0 delay) = 0 := by
    unfold Ephemeral.pushCalls
    rw [hkeep.2]
    rfl
  refine ⟨a1, a2, a3, a4, a5, e1, ?_, ?_, e4, e5, e6, e7⟩
  · rw [e2, hc0]; omega
  · rw [e3, hp0]; omega

/-- C3 witness: a job with three attempts, a retry delay of five and an always-failing
handler, with every external call succeeding: four invocations, three resubmissions. -/
theorem always_failing_job_runs_attempts_plus_one_witness :
    (∀ a, (Amqp.publish sampleMs sampleQueue Amqp.Env.ok "id-1" a (sampleJob 3 5)
      (RetryDuration (sampleJob 3 5).Options)).2 = none) ∧
    Amqp.handlerCalls
      (Amqp.life sampleMs sampleQueue Amqp.Env.ok alwaysFail 9 0
        (firstDelivery "id-1" (sampleJob 3 5))).1 = 3 + 1 ∧
    Amqp.publishCalls
      (Amqp.life sampleMs sampleQueue Amqp.Env.ok alwaysFail 9 0
        (firstDelivery "id-1" (sampleJob 3 5))).1 = 3 ∧
    Ephemeral.handlerCalls
      (Ephemeral.life alwaysFail 9 0
        (Ephemeral.push Ephemeral.newQueue "id-1" (sampleJob 3 5) 0 0)).1 = 3 + 1 :=
  have h := always_failing_job_runs_attempts_plus_one sampleMs sampleQueue Amqp.Env.ok
    alwaysFail "id-1" (sampleJob 3 5) 3 9 0 (by decide) rfl (by decide) rfl rfl rfl
    (fun a => Amqp.publish_ok_result sampleMs sampleQueue "id-1" a (sampleJob 3 5) _)
    (fun _ _ _ => ⟨_, rfl⟩) (by decide)
  ⟨fun a => Amqp.publish_ok_result sampleMs sampleQueue "id-1" a (sampleJob 3 5) _,
   h.2.1, h.2.2.1, h.2.2.2.2.2.2.1⟩

/-- C3 counterexample: with attempts `N = 1` the always-failing handler is invoked twice,
not once, on both backends, before the job is rejected. When the resubmission publish
fails, the network backend requeues the same attempt instead: ten deliveries give ten
invocations and no rejection. -/
theorem always_failing_job_not_invoked_attempts_times :
    Amqp.handlerCalls
      (Amqp.life sampleMs sampleQueue Amqp.Env.ok alwaysFail 5 0
        (firstDelivery "id-1" (sampleJob 1 0))).1 = 2 ∧
    Amqp.handlerCalls
      (Amqp.life sampleMs sampleQueue Amqp.Env.ok alwaysFail 5 0
        (firstDelivery "id-1" (sampleJob 1 0))).1 ≠ 1 ∧
    (Amqp.life sampleMs sampleQueue Amqp.Env.ok alwaysFail 5 0
        (firstDelivery "id-1" (sampleJob 1 0))).2 = true ∧
    Ephemeral.handlerCalls
      (Ephemeral.life alwaysFail 5 0
        (Ephemeral.push Ephemeral.newQueue "id-1" (sampleJob 1 0) 0 0)).1 = 2 ∧
    Ephemeral.handlerCalls
      (Ephemeral.life alwaysFail 5 0
        (Ephemeral.push Ephemeral.newQueue "id-1" (sampleJob 1 0) 0 0)).1 ≠ 1 ∧
    Amqp.handlerCalls
      (Amqp.life sampleMs sampleQueue publishFails alwaysFail 10 0
        (firstDelivery "id-1" (sampleJob 1 0))).1 = 10 ∧
    (Amqp.life sampleMs sampleQueue publishFails alwaysFail 10 0
        (firstDelivery "id-1" (sampleJob 1 0))).2 = false ∧
    (∀ m, Amqp.Op.nack m false ∉
      (Amqp.life sampleMs sampleQueue publishFails alwaysFail 10 0
        (firstDelivery "id-1" (sampleJob 1 0))).1) := by
  decide

end Jobs

namespace Jobs

/-! ## Bounded concurrency -/

theorem Amqp.network_step_conserves (k : Nat) (a : Amqp.Step) (s s2 : Amqp.SState)
    (hinv : s.running + s.returning + s.pool = k) (hs : Amqp.step a s = some s2) :
    s2.running + s2.returning + s2.pool = k := by
  cases a <;> simp only [Amqp.step] at hs <;> split at hs <;> cases hs <;>
    simp only [Bool.and_eq_true, decide_eq_true_eq] at * <;> omega

theorem Amqp.network_run_conserves (k : Nat) (l : List Amqp.Step) :
    ∀ (s s2 : Amqp.SState), s.running + s.returning + s.pool = k →
      Amqp.run l s = some s2 → s2.running + s2.returning + s2.pool = k := by
  induction l with
  | nil =>
    intro s s2 hinv hr
    simp only [Amqp.run, Option.some.injEq] at hr
    subst hr
    exact hinv
  | cons a t ih =>
    intro s s2 hinv hr
    simp only [Amqp.run] at hr
    cases hst : Amqp.step a s with
    | none => simp [hst] at hr
    | some s1 =>
      simp only [hst] at hr
      exact ih s1 s2 (Amqp.network_step_conserves k a s s1 hinv hst) hr

theorem Ephemeral.step_conserves_pool (k c : Nat) (a : Ephemeral.Step)
    (s s2 : Ephemeral.SState)
    (hinv : s.running + s.returning + s.pool = k) (hs : Ephemeral.step c a s = some s2) :
    s2.running + s2.returning + s2.pool = k := by
  cases a <;> simp only [Ephemeral.step] at hs
  case pass =>
    split at hs
    · split at hs
      · cases hs; exact hinv
      · split at hs
        · cases hs; exact hinv
        · cases hs
    · cases hs
  all_goals
    split at hs <;> cases hs <;> simp only [] at * <;> omega

/-- The tokens of the claim semaphore are conserved: free ones, the one the loop holds, and
those held by goroutines. -/
theorem Ephemeral.step_conserves_tokens (c : Nat) (hc : c ≠ 0) (a : Ephemeral.Step)
    (s s2 : Ephemeral.SState)
    (hinv : s.tokens + (if s.phase = Ephemeral.Phase.cleared then 1 else 0) +
      s.running + s.returning + s.releasing = c)
    (hs : Ephemeral.step c a s = some s2) :
    s2.tokens + (if s2.phase = Ephemeral.Phase.cleared then 1 else 0) +
      s2.running + s2.returning + s2.releasing = c := by
  cases a <;> simp only [Ephemeral.step, hc, if_false] at hs
  case claim =>
    split at hs
    · rename_i hp
      cases hs
      simp only [hp] at hinv
      simpa using hinv
    · cases hs
  case pass =>
    split at hs
    · rename_i hp
      split at hs
      · cases hs
        simp only [hp] at hinv
        simp at hinv ⊢
        omega
      · cases hs
    · cases hs
  case lease =>
    split at hs
    · rename_i hp
      cases hs
      simp only [hp.1] at hinv
      simp at hinv ⊢
      omega
    · cases hs
  case finish =>
    split at hs
    · cases hs
      simp only [] at hinv ⊢
      omega
    · cases hs
  case giveBack =>
    split at hs
    · cases hs
      simp only [] at hinv ⊢
      omega
    · cases hs
  case release =>
    split at hs
    · cases hs
      simp only [] at hinv ⊢
      omega
    · cases hs

end Jobs

namespace Jobs

theorem Ephemeral.inprocess_run_conserves (k c : Nat) (l : List Ephemeral.Step) :
    ∀ (s s2 : Ephemeral.SState),
      s.running + s.returning + s.pool = k →
      (c ≠ 0 → s.tokens + (if s.phase = Ephemeral.Phase.cleared then 1 else 0) +
        s.running + s.returning + s.releasing = c) →
      Ephemeral.run c l s = some s2 →
      s2.running + s2.returning + s2.pool = k ∧
      (c ≠ 0 → s2.tokens + (if s2.phase = Ephemeral.Phase.cleared then 1 else 0) +
        s2.running + s2.returning + s2.releasing = c) := by
  induction l with
  | nil =>
    intro s s2 h1 h2 hr
    simp only [Ephemeral.run, Option.some.injEq] at hr
    subst hr
    exact ⟨h1, h2⟩
  | cons a t ih =>
    intro s s2 h1 h2 hr
    simp only [Ephemeral.run] at hr
    cases hst : Ephemeral.step c a s with
    | none => simp [hst] at hr
    | some s1 =>
      simp only [hst] at hr
      exact ih s1 s2 (Ephemeral.step_conserves_pool k c a s s1 h1 hst)
        (fun hc => Ephemeral.step_conserves_tokens c hc a s s1 (h2 hc) hst) hr

/-- C8: in every state the serve loop of either engine reaches from a pool of `k` handlers
with nothing running, the handlers executing (goroutines started by `serve` that still hold
their handler) are at most `k`, those inside `do` are at most `k`, and executing plus free
handlers equal `k`; on the in-process backend with a non-zero claim concurrency `c` the
executing handlers are also at most `c`. -/
theorem bounded_concurrency (k c : Nat) (la : List Amqp.Step) (le : List Ephemeral.Step)
    (sa : Amqp.SState) (se : Ephemeral.SState)
    (ha : Amqp.run la (Amqp.init k) = some sa)
    (he : Ephemeral.run c le (Ephemeral.init k c) = some se) :
    Amqp.executing sa ≤ k ∧ sa.running ≤ k ∧ Amqp.executing sa + sa.pool = k ∧
    Ephemeral.executing se ≤ k ∧ se.running ≤ k ∧ Ephemeral.executing se + se.pool = k ∧
    (c ≠ 0 → Ephemeral.executing se ≤ c) := by
  have h1 := Amqp.network_run_conserves k la (Amqp.init k) sa (by simp [Amqp.init]) ha
  have h2 := Ephemeral.inprocess_run_conserves k c le (Ephemeral.init k c) se
    (by simp [Ephemeral.init]) (fun _ => by simp [Ephemeral.init]) he
  unfold Amqp.executing Ephemeral.executing
  refine ⟨by omega, by omega, by omega, by omega, by omega, by omega, ?_⟩
  intro hc
  have := h2.2 hc
  omega

/-- C8 witness: two handlers, claim concurrency one; the network loop has leased both
handlers, the in-process loop has one handler running and a second job claimed. -/
theorem bounded_concurrency_witness :
    Amqp.executing { pool := 0, pending := false, running := 1, returning := 1 } ≤ 2 ∧
    Ephemeral.executing
      { pool := 1, tokens := 0, phase := Ephemeral.Phase.claimed, running := 1,
        returning := 0, releasing := 0 } ≤ 1 :=
  have h := bounded_concurrency 2 1
    [Amqp.Step.take, Amqp.Step.lease, Amqp.Step.take, Amqp.Step.lease, Amqp.Step.finish]
    [Ephemeral.Step.claim, Ephemeral.Step.pass, Ephemeral.Step.lease, Ephemeral.Step.claim]
    { pool := 0, pending := false, running := 1, returning := 1 }
    { pool := 1, tokens := 0, phase := Ephemeral.Phase.claimed, running := 1,
      returning := 0, releasing := 0 }
    (by decide) (by decide)
  ⟨h.1, h.2.2.2.2.2.2 (by decide)⟩

/-! ## The queue counter of the in-process backend -/

/-- C9, evaluated: a job is pushed on an empty queue, fails once with retry and then
succeeds. No entry is left, yet the queue counter ends at 1, not at the 0 it had before the
push; after the retry it stood at 2 with a single job waiting. -/
theorem queue_counter_inflated_by_retry :
    Ephemeral.newQueue.st.Queue = 0 ∧
    (Ephemeral.life failOnce 1 0
      (Ephemeral.push Ephemeral.newQueue "id-1" (sampleJob 3 0) 0 0)).1.st.Queue = 2 ∧
    Ephemeral.waitingOrHeld (Ephemeral.life failOnce 1 0
      (Ephemeral.push Ephemeral.newQueue "id-1" (sampleJob 3 0) 0 0)).1 = 1 ∧
    (Ephemeral.life failOnce 5 0
      (Ephemeral.push Ephemeral.newQueue "id-1" (sampleJob 3 0) 0 0)) =
      ({ st := { Queue := 1, Active := 0, Delayed := 0 }, sleeping := [], jobs := [],
         held := [],
         log := [Ephemeral.Ev.handler "id-1" (sampleJob 3 0),
                 Ephemeral.Ev.errHandler "id-1" (sampleJob 3 0) { msg := "failed" },
                 Ephemeral.Ev.push "id-1" (sampleJob 3 0) 1 0,
                 Ephemeral.Ev.handler "id-1" (sampleJob 3 0)] }, true) ∧
    Ephemeral.waitingOrHeld (Ephemeral.life failOnce 5 0
      (Ephemeral.push Ephemeral.newQueue "id-1" (sampleJob 3 0) 0 0)).1 = 0 := by
  decide

/-! ## `serve` after stop -/

/-- C10, evaluated: on a delivery received once the active flag is 0, `serve` returns
without locking, adding to the wait-group or leasing a handler, but it unlocks `muw`, which
it does not hold: a fatal error when `muw` is free, and otherwise the release of the lock
`stop` holds, so that the unlock of `stop` itself is the fatal one. -/
theorem serve_after_stop_unlocks_unheld_mutex :
    Amqp.serveDelivery 0 = ([Amqp.SOp.muwUnlock Amqp.Who.serve], true) ∧
    Amqp.lockDiscipline Amqp.Who.serve 0 (Amqp.serveDelivery 0).1 = false ∧
    Amqp.muwRun false (Amqp.serveDelivery 0).1 = none ∧
    Amqp.muwRun false
      ([Amqp.SOp.muwLock Amqp.Who.stop] ++ (Amqp.serveDelivery 0).1 ++
        [Amqp.SOp.wgWait, Amqp.SOp.muwUnlock Amqp.Who.stop]) = none ∧
    Amqp.lockDiscipline Amqp.Who.serve 0 (Amqp.serveDelivery 1).1 = true ∧
    Amqp.muwRun false (Amqp.serveDelivery 1).1 = some false := by
  decide

end Jobs

namespace Jobs

/-! ## Instances of the conditional theorems -/

/-- C4 witness: a failing handler on the first delivery of a job with three attempts and a
retry delay of five; every external call succeeds. -/
theorem retry_resubmits_as_new_delivery_witness :
    CanRetry (Amqp.unpack (firstDelivery "id-1" (sampleJob 3 5))).2.2.Options
      (Amqp.unpack (firstDelivery "id-1" (sampleJob 3 5))).2.1 = true ∧
    Amqp.publishCalls
      (Amqp.queueDo sampleMs sampleQueue Amqp.Env.ok (alwaysFail 0)
        (firstDelivery "id-1" (sampleJob 3 5))).1 = 1 ∧
    (Amqp.queueDo sampleMs sampleQueue Amqp.Env.ok (alwaysFail 0)
        (firstDelivery "id-1" (sampleJob 3 5))).2 = Amqp.Env.ok.ackErr :=
  have h := retry_resubmits_as_new_delivery sampleMs sampleQueue Amqp.Env.ok (alwaysFail 0)
    (firstDelivery "id-1" (sampleJob 3 5)) { msg := "failed" } rfl (by decide) (by decide)
    (by decide)
  ⟨by decide, h.2.2.2.1, h.2.1⟩

/-- C5 witness: the same delivery when the `Publish` call of the resubmission fails. -/
theorem failed_resubmission_requeues_witness :
    (Amqp.publish sampleMs sampleQueue
        { Amqp.Env.ok with publishErr := some { msg := "channel closed" } } "id-1"
        (addInt 0 1) (sampleJob 3 5) (RetryDuration (sampleJob 3 5).Options)).2
      = some { msg := "channel closed" } ∧
    Amqp.Op.nack false true ∈
      (Amqp.queueDo sampleMs sampleQueue
        { Amqp.Env.ok with publishErr := some { msg := "channel closed" } } (alwaysFail 0)
        (firstDelivery "id-1" (sampleJob 3 5))).1 ∧
    Amqp.Op.report { msg := "channel closed" } ∈
      (Amqp.queueDo sampleMs sampleQueue
        { Amqp.Env.ok with publishErr := some { msg := "channel closed" } } (alwaysFail 0)
        (firstDelivery "id-1" (sampleJob 3 5))).1 :=
  have h := failed_resubmission_requeues sampleMs sampleQueue
    { Amqp.Env.ok with publishErr := some { msg := "channel closed" } } (alwaysFail 0)
    (firstDelivery "id-1" (sampleJob 3 5)) { msg := "failed" } { msg := "channel closed" }
    rfl (by decide) (by decide) (by decide)
  ⟨by decide, h.2.2.2.1, h.2.2.1⟩

/-- C6, evaluated: for a delay of 1001 ms, the `time.Duration` 1001000000, the code computes
`delay.Seconds() * 1000` in `float64` as a value below 1001 and converts it to 1000, the value
it also computes for a delay of one second. `publish` then declares the helper queue
`delayed-1000.amqp.direct.default` with message TTL 1000 and expiry 2000 and publishes to it,
where the delay in milliseconds is 1001. For delays of one and of five seconds the value is
the delay in milliseconds. -/
theorem delayed_ttl_is_not_delay_in_milliseconds :
    delayMillis 1001000000 = 1000 ∧
    delayMillis 1001000000 ≠ 1001 ∧
    (F64.mul (Seconds 1001000000) (F64.ofInt 1000)).num <
      1001 * (F64.mul (Seconds 1001000000) (F64.ofInt 1000)).den ∧
    delayMillis 1000000000 = 1000 ∧
    delayMillis 5000000000 = 5000 ∧
    Amqp.publish delayMillis sampleQueue Amqp.Env.ok "id-1" 1 (sampleJob 3 5) 1001000000 =
      ([Amqp.Op.channel "default", Amqp.Op.channel "default",
        Amqp.Op.exchangeDeclare "amqp.direct" "direct" true false false false,
        Amqp.Op.queueDeclare "delayed-1000.amqp.direct.default" true false false false
          [("x-dead-letter-exchange", Amqp.HVal.str "amqp.direct"),
           ("x-dead-letter-routing-key", Amqp.HVal.str "default"),
           ("x-message-ttl", Amqp.HVal.int64 1000),
           ("x-expires", Amqp.HVal.int64 2000)],
        Amqp.Op.queueBind "delayed-1000.amqp.direct.default"
          "delayed-1000.amqp.direct.default" "amqp.direct" false,
        Amqp.Op.publish "amqp.direct" "delayed-1000.amqp.direct.default" false false
          { ContentType := "application/octet-stream", Body := [1, 2, 3], DeliveryMode := 2,
            Headers := Amqp.pack "id-1" 1 (sampleJob 3 5) }], none) := by
  decide

/-- C7 witness: delays of one and two seconds for the same pipeline. -/
theorem helper_names_collision_free_witness :
    sampleMs 1 ≠ sampleMs 2 ∧
    Amqp.delayedName (sampleMs 1) sampleQueue.exchange sampleQueue.name ≠
      Amqp.delayedName (sampleMs 2) sampleQueue.exchange sampleQueue.name :=
  ⟨by decide, (helper_names_collision_free sampleMs sampleQueue 1 2 (by decide)).1⟩

end Jobs

namespace Jobs

/-- C2 witness: a delivery whose id and attempts are well typed, whose attempt and job name
are mistyped and whose other headers are absent is unpacked field by field; it is handled
and acknowledged when the call of `unpack` binds no error, and rejected without its handler
running when it binds one. -/
theorem unpack_defensive_reject_only_on_unpack_error_witness :
    Amqp.unpack mixedDelivery =
      ("id-7", 0, { Job := "", Payload := [7],
                    Options := { Attempts := 3, Timeout := 0, Delay := 0, RetryDelay := 0 } }) ∧
    (Amqp.unpack mixedDelivery).1 = "id-7" ∧
    (Amqp.unpack mixedDelivery).2.1 = 0 ∧
    (Amqp.unpack mixedDelivery).2.2.Options.Attempts = 3 ∧
    Amqp.queueDo sampleMs sampleQueue Amqp.Env.ok (fun _ _ => none) mixedDelivery =
      ([Amqp.Op.handler (Amqp.unpack mixedDelivery).1 (Amqp.unpack mixedDelivery).2.2,
        Amqp.Op.ack false], Amqp.Env.ok.ackErr) ∧
    Amqp.queueDo sampleMs sampleQueue unpackFails (fun _ _ => none) mixedDelivery =
      ([Amqp.Op.report { msg := "missing header rr-id" }, Amqp.Op.nack false false],
        unpackFails.nackErr) :=
  have h := Amqp.unpack_defensive_reject_only_on_unpack_error mixedDelivery
  ⟨by decide, h.1.1 "id-7" (by decide),
   h.2.1.2 (by intro v hv; simp [mixedDelivery, Amqp.Table.get, List.lookup] at hv),
   h.2.2.2.1.1 3 (by decide),
   h.2.2.2.2.2.2.2.2.2.2.2.2.2.2.2.2.1 sampleMs sampleQueue Amqp.Env.ok (fun _ _ => none)
     rfl rfl,
   h.2.2.2.2.2.2.2.2.2.2.2.2.2.2.2.2.2 sampleMs sampleQueue unpackFails (fun _ _ => none)
     { msg := "missing header rr-id" } rfl⟩

/-- C2 counterexample: a delivery without headers is rejected by `do`, with a report and a
nack without requeue and without its handler running, when the call of `unpack` binds an
error. -/
theorem delivery_rejected_when_unpack_reports_error :
    Amqp.queueDo sampleMs sampleQueue unpackFails (fun _ _ => none)
        { Headers := [], Body := [7] } =
      ([Amqp.Op.report { msg := "missing header rr-id" }, Amqp.Op.nack false false], none) ∧
    Amqp.handlerCalls
      (Amqp.queueDo sampleMs sampleQueue unpackFails (fun _ _ => none)
        { Headers := [], Body := [7] }).1 = 0 ∧
    Amqp.nextDelivery { Headers := [], Body := [7] }
      (Amqp.queueDo sampleMs sampleQueue unpackFails (fun _ _ => none)
        { Headers := [], Body := [7] }).1 = none := by
  decide

end Jobs
